import Mathlib

/-!
Verification development for the real-time WebSocket connection manager of
the pentrypal backend (`app/core/websocket.py` and
`app/api/v1/endpoints/websocket.py`).

The manager state is three dictionaries:
  active_connections : user id -> list of live websockets
  room_subscriptions : room id -> set of member user ids
  user_rooms         : user id -> set of room ids (reverse index)

Dictionaries are embedded as association lists over `String` keys
(Python dicts preserve insertion order; values are updated in place and
new keys are appended at the end).  Sets are embedded as lists where
`add` appends when absent and `discard` filters.  Websocket handles are
`Nat`.  Network send failures are modelled by a parameter `fail : List Nat`
listing the connections whose `send_text` raises.

The operations of the manager are mutually recursive in the source
(`broadcast_to_room` -> `disconnect` -> `leave_room` -> `broadcast_to_room`),
so they are embedded as one fuel-indexed interpreter `run` over an operation
tag; running out of fuel is reported as a distinguished outcome and never
identified with any behaviour of the source.  Iterating over a Python set
that is mutated mid-iteration raises `RuntimeError`; the embedding checks,
after each processed member, that the member set being iterated is
unchanged, and reports `runtimeError` otherwise, exactly where CPython's
set iterator raises.
-/

namespace PentryPal

/-- Outbound server-to-client messages, tagged as in the source.  The
`datetime.utcnow()` timestamps carried by some messages are not part of the
embedding.  `payload tag` stands for an arbitrary application payload handed
to the fanout operations by a caller. -/
inductive Msg where
  | connection_established (user_id : String)
  | room_joined (room_id : String)
  | user_joined_room (room_id : String) (user_id : String)
  | user_left_room (room_id : String) (user_id : String)
  | error (message : String) (list_id : Option String)
  | pong (timestamp : Option String)
  | online_status_update (data : List (String × Bool))
  | typing_indicator (list_id : String) (user_id : String) (is_typing : Bool)
  | payload (tag : String)
deriving DecidableEq, Repr

/-- The manager's shared mutable state: the three dictionaries of
`ConnectionManager.__init__`. -/
structure ManagerState where
  active_connections : List (String × List Nat)
  room_subscriptions : List (String × List String)
  user_rooms : List (String × List String)
deriving DecidableEq, Repr

/-- Lookup in an association list (Python `d[k]` / `k in d`). -/
def alook {α : Type} : List (String × α) → String → Option α
  | [], _ => none
  | (k, v) :: rest, key => if k = key then some v else alook rest key

/-- Write `d[k] = v`: replace the first binding in place, or append a new
binding at the end, as a Python dict does. -/
def aset {α : Type} : List (String × α) → String → α → List (String × α)
  | [], key, v => [(key, v)]
  | (k, w) :: rest, key, v =>
    if k = key then (key, v) :: rest else (k, w) :: aset rest key v

/-- Deletion, `del d[k]`. -/
def adel {α : Type} : List (String × α) → String → List (String × α)
  | [], _ => []
  | (k, v) :: rest, key =>
    if k = key then adel rest key else (k, v) :: adel rest key

/-- Python `set.add`: append when absent. -/
def sadd {α : Type} [BEq α] (l : List α) (x : α) : List α :=
  if l.contains x then l else l ++ [x]

/-- Python `set.discard`: remove every occurrence. -/
def sdiscard {α : Type} [BEq α] (l : List α) (x : α) : List α :=
  l.filter (fun y => !(y == x))

/-- The connections currently registered for a user (empty when the user
key is absent). -/
def aconns (s : ManagerState) (u : String) : List Nat :=
  (alook s.active_connections u).getD []

/-- The member set of a room (empty when the room key is absent). -/
def members (s : ManagerState) (r : String) : List String :=
  (alook s.room_subscriptions r).getD []

/-- The room set of a user in the reverse index (empty when absent). -/
def rooms (s : ManagerState) (u : String) : List String :=
  (alook s.user_rooms u).getD []

/-- Embeds `ConnectionManager.is_user_online`. -/
def is_user_online (s : ManagerState) (u : String) : Bool :=
  match alook s.active_connections u with
  | none => false
  | some conns => !conns.isEmpty

/-- Embeds `ConnectionManager.get_total_connections`. -/
def get_total_connections (s : ManagerState) : Nat :=
  (s.active_connections.map (fun p => p.2.length)).sum

/-- How one operation of the manager finished: normally, by raising
CPython's `RuntimeError` for a set mutated during iteration, or as a fuel
artifact of the embedding. -/
inductive Outcome where
  | ok
  | runtimeError
  | fuelOut
deriving DecidableEq, Repr

/-- Result of running one operation: final state, delivery trace in order,
and how it finished. -/
structure Res where
  state : ManagerState
  sent : List (Nat × Msg)
  out : Outcome
deriving DecidableEq, Repr

/-- Sequencing: when the first part finished normally, continue from its
state and concatenate the traces; otherwise propagate. -/
def Res.then (r : Res) (f : ManagerState → Res) : Res :=
  match r.out with
  | .ok =>
    let r2 := f r.state
    ⟨r2.state, r.sent ++ r2.sent, r2.out⟩
  | _ => r

/-- The Python truthiness test `if exclude_user and user_id == exclude_user`:
`None` and the empty string never exclude anyone. -/
def excludedBy : Option String → String → Bool
  | none, _ => false
  | some e, v => if e = "" then false else v == e

/-- The operations of the manager, including the three internal loops
(the disconnect cascade over a copied room set, the cleanup loop over
failed connections, and the live iteration of a broadcast). -/
inductive Op where
  | connect (ws : Nat) (u : String)
  | disconnect (ws : Nat) (u : String)
  | join_room (u : String) (r : String)
  | leave_room (u : String) (r : String)
  | send_personal (m : Msg) (u : String)
  | broadcast (m : Msg) (r : String) (excl : Option String)
  | leave_all (u : String) (pending : List String)
  | disconnect_all (u : String) (pending : List Nat)
  | broadcast_go (m : Msg) (r : String) (excl : Option String)
      (ms0 : List String) (pending : List String)
deriving Repr

/-- The pure state change of `connect`: append the websocket to the user's
connection list, creating the key when absent. -/
def connect_state (s : ManagerState) (ws : Nat) (u : String) : ManagerState :=
  { s with active_connections := aset s.active_connections u (aconns s u ++ [ws]) }

/-- The pure state change of `join_room`: add the user to the room's member
set and the room to the user's room set, creating missing keys. -/
def join_room_state (s : ManagerState) (u : String) (r : String) : ManagerState :=
  { s with
    room_subscriptions := aset s.room_subscriptions r (sadd (members s r) u),
    user_rooms := aset s.user_rooms u (sadd (rooms s u) r) }

/-- The first pure state change of `leave_room`: discard the user from the
room's member set, deleting the room key when the set empties. -/
def leave_room_rooms_map (s : ManagerState) (u : String) (r : String) : ManagerState :=
  match alook s.room_subscriptions r with
  | none => s
  | some ms =>
    let ms2 := sdiscard ms u
    if ms2.isEmpty then { s with room_subscriptions := adel s.room_subscriptions r }
    else { s with room_subscriptions := aset s.room_subscriptions r ms2 }

/-- The pure state change of `leave_room`: the member-set discard followed
by the reverse-index discard. -/
def leave_room_state (s : ManagerState) (u : String) (r : String) : ManagerState :=
  let s1 := leave_room_rooms_map s u r
  match alook s1.user_rooms u with
  | none => s1
  | some rs => { s1 with user_rooms := aset s1.user_rooms u (sdiscard rs r) }

/-- Fuel-indexed interpreter for the manager's operations, one case per
method of `ConnectionManager`:

* `connect`: accept, append the websocket to the user's list (creating the
  key), then send `connection_established` through `send_personal_message`.
* `disconnect`: remove the websocket; when the list empties, delete the
  user key, leave every room of a copy of `user_rooms[user]`, then delete
  the `user_rooms` key.
* `join_room`: add to both maps, send `room_joined` to the joiner, then
  broadcast `user_joined_room` excluding the joiner.
* `leave_room`: discard from the member set (deleting the room key when it
  empties), discard from the reverse index, then broadcast `user_left_room`
  excluding the leaver.
* `send_personal`: attempt `send_text` on every connection of the user in
  order; failures are collected and passed to `disconnect` afterwards.
* `broadcast`: iterate the live member set; each member's connections are
  written to and failures disconnected; after each member the embedding
  performs CPython's set-iterator mutation check.

Empty internal loops complete without consuming fuel, so that a loop over
nothing is a no-op at every fuel. -/
def run (fail : List Nat) : Nat → Op → ManagerState → Res
  | 0, op, s =>
    match op with
    | .leave_all _ [] => ⟨s, [], .ok⟩
    | .disconnect_all _ [] => ⟨s, [], .ok⟩
    | .broadcast_go _ _ _ _ [] => ⟨s, [], .ok⟩
    | _ => ⟨s, [], .fuelOut⟩
  | fuel+1, op, s =>
    match op with
    | .connect ws u =>
      run fail fuel (.send_personal (.connection_established u) u) (connect_state s ws u)
    | .disconnect ws u =>
      match alook s.active_connections u with
      | none => ⟨s, [], .ok⟩
      | some conns =>
        let conns2 := if conns.contains ws then conns.erase ws else conns
        if conns2.isEmpty then
          let s1 := { s with active_connections := adel s.active_connections u }
          match alook s1.user_rooms u with
          | none => ⟨s1, [], .ok⟩
          | some rooms0 =>
            (run fail fuel (.leave_all u rooms0) s1).then fun s2 =>
              ⟨{ s2 with user_rooms := adel s2.user_rooms u }, [], .ok⟩
        else
          ⟨{ s with active_connections := aset s.active_connections u conns2 }, [], .ok⟩
    | .join_room u r =>
      (run fail fuel (.send_personal (.room_joined r) u) (join_room_state s u r)).then fun s2 =>
        run fail fuel (.broadcast (.user_joined_room r u) r (some u)) s2
    | .leave_room u r =>
      run fail fuel (.broadcast (.user_left_room r u) r (some u)) (leave_room_state s u r)
    | .send_personal m u =>
      match alook s.active_connections u with
      | none => ⟨s, [], .ok⟩
      | some conns =>
        let delivered := (conns.filter (fun c => !(fail.contains c))).map (fun c => (c, m))
        let failed := conns.filter (fun c => fail.contains c)
        (⟨s, delivered, .ok⟩ : Res).then fun s1 =>
          run fail fuel (.disconnect_all u failed) s1
    | .broadcast m r excl =>
      match alook s.room_subscriptions r with
      | none => ⟨s, [], .ok⟩
      | some ms => run fail fuel (.broadcast_go m r excl ms ms) s
    | .leave_all u pending =>
      match pending with
      | [] => ⟨s, [], .ok⟩
      | r :: rest =>
        (run fail fuel (.leave_room u r) s).then fun s1 =>
          run fail fuel (.leave_all u rest) s1
    | .disconnect_all u pending =>
      match pending with
      | [] => ⟨s, [], .ok⟩
      | c :: rest =>
        (run fail fuel (.disconnect c u) s).then fun s1 =>
          run fail fuel (.disconnect_all u rest) s1
    | .broadcast_go m r excl ms0 pending =>
      match pending with
      | [] => ⟨s, [], .ok⟩
      | v :: rest =>
        let step : Res :=
          if excludedBy excl v then ⟨s, [], .ok⟩
          else
            match alook s.active_connections v with
            | none => ⟨s, [], .ok⟩
            | some conns =>
              let delivered := (conns.filter (fun c => !(fail.contains c))).map (fun c => (c, m))
              let failed := conns.filter (fun c => fail.contains c)
              (⟨s, delivered, .ok⟩ : Res).then fun s1 =>
                run fail fuel (.disconnect_all v failed) s1
        step.then fun s1 =>
          if alook s1.room_subscriptions r = some ms0 then
            run fail fuel (.broadcast_go m r excl ms0 rest) s1
          else ⟨s1, [], .runtimeError⟩

/-- Embeds `ConnectionManager.connect`. -/
def connect (fail : List Nat) (fuel : Nat) (ws : Nat) (u : String) (s : ManagerState) : Res :=
  run fail fuel (.connect ws u) s

/-- Embeds `ConnectionManager.disconnect`. -/
def disconnect (fail : List Nat) (fuel : Nat) (ws : Nat) (u : String) (s : ManagerState) : Res :=
  run fail fuel (.disconnect ws u) s

/-- Embeds `ConnectionManager.join_room`. -/
def join_room (fail : List Nat) (fuel : Nat) (u : String) (r : String) (s : ManagerState) : Res :=
  run fail fuel (.join_room u r) s

/-- Embeds `ConnectionManager.leave_room`. -/
def leave_room (fail : List Nat) (fuel : Nat) (u : String) (r : String) (s : ManagerState) : Res :=
  run fail fuel (.leave_room u r) s

/-- Embeds `ConnectionManager.send_personal_message`. -/
def send_personal_message (fail : List Nat) (fuel : Nat) (m : Msg) (u : String) (s : ManagerState) : Res :=
  run fail fuel (.send_personal m u) s

/-- Embeds `ConnectionManager.broadcast_to_room`. -/
def broadcast_to_room (fail : List Nat) (fuel : Nat) (m : Msg) (r : String)
    (excl : Option String) (s : ManagerState) : Res :=
  run fail fuel (.broadcast m r excl) s

/-- An inbound client message after `json.loads`, decoded by its `type`
tag as `handle_websocket_message` does.  Fields read with `message.get`
are optional; `unknown` covers every unrecognized `type` value (itself
possibly absent). -/
inductive ClientMsg where
  | join_list_room (list_id : Option String)
  | leave_list_room (list_id : Option String)
  | ping (timestamp : Option String)
  | get_online_status (friend_ids : List String)
  | typing_indicator (list_id : Option String) (is_typing : Bool)
  | unknown (tag : Option String)
deriving DecidableEq, Repr

/-- Python truthiness of an optional string field (`if list_id:`):
absent and empty are both falsy. -/
def truthy : Option String → Bool
  | none => false
  | some v => !(v == "")

/-- How Python's f-string renders `message.get("type")` inside the
unknown-type error reply: `None` for an absent tag. -/
def tagStr : Option String → String
  | none => "None"
  | some t => t

/-- Embeds `handle_websocket_message`.  The `join_list_room` branch of the
source calls `shopping_list_service.get_shopping_list_by_id(db, list_id,
user_id)`, but `ShoppingListService` (app/services/shopping_list_service.py)
defines no such method — its lookup is `get_list_by_id` — and the name
appears nowhere else in the repository, so the attribute access raises
`AttributeError` whenever `list_id` is truthy, before any manager state is
touched; the access check, the access-denied reply and the `join_room`
call below it are unreachable.  A handler invocation that raises such an
exception is modelled as `none`; a normal return as `some`. -/
def handle_websocket_message (fail : List Nat) (fuel : Nat) (m : ClientMsg)
    (u : String) (s : ManagerState) : Option Res :=
  match m with
  | .join_list_room lid =>
    if truthy lid then none
    else some ⟨s, [], .ok⟩
  | .leave_list_room lid =>
    if truthy lid then some (run fail fuel (.leave_room u ("list_" ++ lid.getD "")) s)
    else some ⟨s, [], .ok⟩
  | .ping ts => some (run fail fuel (.send_personal (.pong ts) u) s)
  | .get_online_status fids =>
    some (run fail fuel
      (.send_personal (.online_status_update (fids.map (fun f => (f, is_user_online s f)))) u) s)
  | .typing_indicator lid it =>
    if truthy lid then
      some (run fail fuel
        (.broadcast (.typing_indicator (lid.getD "") u it) ("list_" ++ lid.getD "") (some u)) s)
    else some ⟨s, [], .ok⟩
  | .unknown tag =>
    some (run fail fuel
      (.send_personal (.error ("Unknown message type: " ++ tagStr tag) none) u) s)

/-- One result of `websocket.receive_text()` in the endpoint loop: a frame
that parses as JSON into a message, a frame on which `json.loads` raises,
or a transport close surfacing as `WebSocketDisconnect`. -/
inductive Frame where
  | msg (m : ClientMsg)
  | badJson
  | wsDisconnect
deriving DecidableEq, Repr

/-- How the endpoint coroutine ended. -/
inductive Ending where
  | stillActive
  | closedPolicy
  | closedInternal
  | finishedAfterDisconnect
  | outOfFuel
deriving DecidableEq, Repr

/-- Result of the endpoint coroutine: manager state, delivery trace, and
how it ended.

* `stillActive`: the scripted frames ran out while the receive loop was
  still waiting for the next message.
* `closedPolicy`: `websocket.close(code=WS_1008_POLICY_VIOLATION)` on an
  authentication failure.
* `closedInternal`: `websocket.close(code=WS_1011_INTERNAL_ERROR)` after
  an exception escaped the receive loop (bad JSON, or a `RuntimeError`
  escaping a handler); note the source does not call
  `connection_manager.disconnect` on this path.
* `finishedAfterDisconnect`: `WebSocketDisconnect` was caught and
  `disconnect` ran. -/
structure EndRes where
  state : ManagerState
  sent : List (Nat × Msg)
  ending : Ending
deriving DecidableEq, Repr

/-- The receive loop of `websocket_endpoint`: one scripted frame per
iteration.  A handler that raises (modelled `none`), or finishes with the
set-iteration `RuntimeError`, escapes to the generic `except Exception`
handler, which closes the socket with code 1011. -/
def run_loop (fail : List Nat) : Nat → Nat → List Frame → String → ManagerState → EndRes
  | _, _, [], _, s => ⟨s, [], .stillActive⟩
  | 0, _, _, _, s => ⟨s, [], .outOfFuel⟩
  | fuel+1, ws, f :: fs, u, s =>
    match f with
    | .badJson => ⟨s, [], .closedInternal⟩
    | .wsDisconnect =>
      let r := run fail fuel (.disconnect ws u) s
      match r.out with
      | .ok => ⟨r.state, r.sent, .finishedAfterDisconnect⟩
      | .runtimeError => ⟨r.state, r.sent, .closedInternal⟩
      | .fuelOut => ⟨r.state, r.sent, .outOfFuel⟩
    | .msg m =>
      match handle_websocket_message fail fuel m u s with
      | none => ⟨s, [], .closedInternal⟩
      | some r =>
        match r.out with
        | .ok =>
          let e := run_loop fail fuel ws fs u r.state
          ⟨e.state, r.sent ++ e.sent, e.ending⟩
        | .runtimeError => ⟨r.state, r.sent, .closedInternal⟩
        | .fuelOut => ⟨r.state, r.sent, .outOfFuel⟩

/-- Embeds `websocket_endpoint`: here `auth` is the outcome of
`get_user_from_token(token, db)` (`none` when it raises `HTTPException`,
in which case the socket is closed with the policy-violation code before
the manager is touched); on success the connection is accepted and
registered and the receive loop starts over the scripted frames. -/
def websocket_endpoint (fail : List Nat) (fuel : Nat) (auth : Option String)
    (ws : Nat) (frames : List Frame) (s : ManagerState) : EndRes :=
  match auth with
  | none => ⟨s, [], .closedPolicy⟩
  | some u =>
    match fuel with
    | 0 => ⟨s, [], .outOfFuel⟩
    | fuel+1 =>
      let r := run fail fuel (.connect ws u) s
      match r.out with
      | .ok =>
        let e := run_loop fail fuel ws frames u r.state
        ⟨e.state, r.sent ++ e.sent, e.ending⟩
      | .runtimeError => ⟨r.state, r.sent, .closedInternal⟩
      | .fuelOut => ⟨r.state, r.sent, .outOfFuel⟩

/-- The bidirectional membership invariant of the spec:
`u ∈ members(r) ⇔ r ∈ rooms(u)` (a missing key reads as the empty set). -/
def Bidir (s : ManagerState) : Prop :=
  ∀ u r, u ∈ members s r ↔ r ∈ rooms s u

/-- Structural invariants of the manager state: a user key exists in the
registry only with a non-empty connection list, a room key exists only
with a non-empty member set, and the two room maps are mutually
consistent. -/
structure WF (s : ManagerState) : Prop where
  activeNE : ∀ u cs, alook s.active_connections u = some cs → cs ≠ []
  roomsNE : ∀ r ms, alook s.room_subscriptions r = some ms → ms ≠ []
  bidir : Bidir s

/-- States reachable from the initial empty manager by any sequence of
operations, under any network conditions and any fuel. -/
inductive Reachable : ManagerState → Prop where
  | empty : Reachable ⟨[], [], []⟩
  | step (fail : List Nat) (fuel : Nat) (op : Op) {s : ManagerState} :
      Reachable s → Reachable (run fail fuel op s).state

/-- Operations that only ever remove connections and memberships
(everything except `connect` and `join_room`). -/
def Op.casc : Op → Bool
  | .connect _ _ => false
  | .join_room _ _ => false
  | _ => true

/-- State `s2` has no connection or membership that `s1` lacks. -/
def StateLe (s2 s1 : ManagerState) : Prop :=
  (∀ v c, c ∈ aconns s2 v → c ∈ aconns s1 v) ∧
  (∀ r v, v ∈ members s2 r → v ∈ members s1 r) ∧
  (∀ v r, r ∈ rooms s2 v → r ∈ rooms s1 v)

/-- No currently registered connection is failing. -/
def NoFailing (fail : List Nat) (s : ManagerState) : Prop :=
  ∀ p ∈ s.active_connections, ∀ c ∈ p.2, fail.contains c = false

/-- The deliveries a broadcast performs over a member list when no send
fails and the state is not mutated: for each non-excluded member, one
copy of the message to each of its non-failing connections, in order. -/
def bcast_sends (fail : List Nat) (m : Msg) (excl : Option String)
    (s : ManagerState) : List String → List (Nat × Msg)
  | [] => []
  | v :: rest =>
    (if excludedBy excl v then [] else
      ((aconns s v).filter (fun c => !(fail.contains c))).map (fun c => (c, m))) ++
    bcast_sends fail m excl s rest

/-- A small reachable state used by concrete witnesses: users `A` (socket
`0`) and `B` (socket `1`) connected and both joined to room `"r"`. -/
def exampleState : ManagerState :=
  (run [] 9 (.join_room "B" "r")
    (run [] 9 (.join_room "A" "r")
      (run [] 5 (.connect 1 "B")
        (run [] 5 (.connect 0 "A") ⟨[], [], []⟩).state).state).state).state

/-- State `exampleState` with a second socket `2` for user `A`. -/
def exampleState2 : ManagerState :=
  (run [] 5 (.connect 2 "A") exampleState).state

/-- A reachable state for the aborted-cascade scenario: user `U` (socket
`10`) joined to rooms `r1` and `r2`, user `W` (socket `11`) joined to
`r1`. -/
def exampleStateW : ManagerState :=
  (run [] 9 (.join_room "U" "r2")
    (run [] 9 (.join_room "W" "r1")
      (run [] 9 (.join_room "U" "r1")
        (run [] 5 (.connect 11 "W")
          (run [] 5 (.connect 10 "U") ⟨[], [], []⟩).state).state).state).state).state

/-! ### Association-list and set lemmas -/

theorem alook_aset_self {α : Type} (l : List (String × α)) (k : String) (v : α) :
    alook (aset l k v) k = some v := by
  induction l with
  | nil => simp [aset, alook]
  | cons p rest ih =>
    obtain ⟨a, b⟩ := p
    by_cases h : a = k
    · simp [aset, h, alook]
    · simp [aset, h, alook, ih]

theorem alook_aset_ne {α : Type} (l : List (String × α)) {k k' : String} (v : α)
    (h : k' ≠ k) : alook (aset l k v) k' = alook l k' := by
  have hk : ¬(k = k') := fun hh => h hh.symm
  induction l with
  | nil => simp [aset, alook, hk]
  | cons p rest ih =>
    obtain ⟨a, b⟩ := p
    by_cases ha : a = k
    · subst ha
      simp [aset, alook, hk]
    · by_cases ha' : a = k'
      · simp [aset, ha, alook, ha', h]
      · simp [aset, ha, alook, ha', ih]

theorem alook_adel_self {α : Type} (l : List (String × α)) (k : String) :
    alook (adel l k) k = none := by
  induction l with
  | nil => simp [adel, alook]
  | cons p rest ih =>
    obtain ⟨a, b⟩ := p
    by_cases h : a = k
    · simpa [adel, h] using ih
    · simp [adel, h, alook, ih]

theorem alook_adel_ne {α : Type} (l : List (String × α)) {k k' : String}
    (h : k' ≠ k) : alook (adel l k) k' = alook l k' := by
  have hk : ¬(k = k') := fun hh => h hh.symm
  induction l with
  | nil => simp [adel, alook]
  | cons p rest ih =>
    obtain ⟨a, b⟩ := p
    by_cases ha : a = k
    · subst ha
      simp [adel, alook, hk, ih]
    · by_cases ha' : a = k'
      · simp [adel, ha, ha', alook, h]
      · simp [adel, ha, ha', alook, ih]

theorem aset_same {α : Type} {l : List (String × α)} {k : String} {v : α}
    (h : alook l k = some v) : aset l k v = l := by
  induction l with
  | nil => simp [alook] at h
  | cons p rest ih =>
    obtain ⟨a, b⟩ := p
    by_cases ha : a = k
    · subst ha
      simp [alook] at h
      simp [aset, h]
    · simp [alook, ha] at h
      simp [aset, ha, ih h]

theorem alook_mem {α : Type} {l : List (String × α)} {k : String} {v : α}
    (h : alook l k = some v) : (k, v) ∈ l := by
  induction l with
  | nil => simp [alook] at h
  | cons p rest ih =>
    obtain ⟨a, b⟩ := p
    by_cases ha : a = k
    · subst ha
      simp [alook] at h
      simp [h]
    · simp [alook, ha] at h
      exact List.mem_cons_of_mem _ (ih h)

theorem mem_sadd {α : Type} [BEq α] [LawfulBEq α] {l : List α} {x y : α} :
    y ∈ sadd l x ↔ y ∈ l ∨ y = x := by
  unfold sadd
  by_cases h : l.contains x = true
  · simp only [h, if_true]
    constructor
    · exact Or.inl
    · rintro (hy | rfl)
      · exact hy
      · exact List.elem_iff.mp h
  · have h2 : x ∉ l := fun hm => h (List.elem_iff.mpr hm)
    simp [h2]

theorem sadd_ne_nil {α : Type} [BEq α] [LawfulBEq α] {l : List α} {x : α} :
    sadd l x ≠ [] := by
  unfold sadd
  by_cases h : l.contains x = true
  · simp only [h, if_true]
    intro hl
    subst hl
    simp at h
  · have h2 : x ∉ l := fun hm => h (List.elem_iff.mpr hm)
    simp [h2]

theorem mem_sdiscard {α : Type} [BEq α] [LawfulBEq α] {l : List α} {x y : α} :
    y ∈ sdiscard l x ↔ y ∈ l ∧ y ≠ x := by
  simp [sdiscard, List.mem_filter]

theorem sdiscard_of_not_mem {α : Type} [BEq α] [LawfulBEq α] {l : List α} {x : α}
    (h : x ∉ l) : sdiscard l x = l := by
  unfold sdiscard
  apply List.filter_eq_self.mpr
  intro y hy
  simp only [Bool.not_eq_true', beq_eq_false_iff_ne]
  intro hyx
  exact h (hyx ▸ hy)

theorem sdiscard_not_mem {α : Type} [BEq α] [LawfulBEq α] (l : List α) (x : α) :
    x ∉ sdiscard l x := by
  intro h
  exact (mem_sdiscard.mp h).2 rfl

theorem mem_adel {α : Type} {l : List (String × α)} {k : String} {p : String × α} :
    p ∈ adel l k → p ∈ l := by
  induction l with
  | nil => simp [adel]
  | cons q rest ih =>
    obtain ⟨a, b⟩ := q
    by_cases ha : a = k
    · simp only [adel, ha, if_true]
      intro h
      exact List.mem_cons_of_mem _ (ih h)
    · simp only [adel, ha, if_false]
      intro h
      rcases List.mem_cons.mp h with h1 | h2
      · exact h1 ▸ List.mem_cons_self _ _
      · exact List.mem_cons_of_mem _ (ih h2)

/-! ### Sequencing lemmas -/

theorem Res.then_ok {r : Res} (h : r.out = .ok) (f : ManagerState → Res) :
    r.then f = ⟨(f r.state).state, r.sent ++ (f r.state).sent, (f r.state).out⟩ := by
  unfold Res.then
  rw [h]

theorem Res.then_not_ok {r : Res} (h : r.out ≠ .ok) (f : ManagerState → Res) :
    r.then f = r := by
  unfold Res.then
  cases ho : r.out with
  | ok => exact absurd ho h
  | runtimeError => rfl
  | fuelOut => rfl

theorem Res.then_state_cases (r : Res) (f : ManagerState → Res) :
    (r.then f).state = r.state ∨
      (r.out = .ok ∧ (r.then f).state = (f r.state).state) := by
  cases ho : r.out with
  | ok => exact Or.inr ⟨rfl, by rw [Res.then_ok ho]⟩
  | runtimeError => rw [Res.then_not_ok (by simp [ho])]; exact Or.inl rfl
  | fuelOut => rw [Res.then_not_ok (by simp [ho])]; exact Or.inl rfl

theorem Res.then_out_ok {r : Res} {f : ManagerState → Res}
    (h : (r.then f).out = .ok) : r.out = .ok ∧ (f r.state).out = .ok := by
  cases ho : r.out with
  | ok => rw [Res.then_ok ho] at h; exact ⟨rfl, h⟩
  | runtimeError => rw [Res.then_not_ok (by simp [ho])] at h; rw [ho] at h; cases h
  | fuelOut => rw [Res.then_not_ok (by simp [ho])] at h; rw [ho] at h; cases h

theorem Res.then_out_ne {r : Res} {f : ManagerState → Res} {o : Outcome}
    (h1 : r.out ≠ o) (h2 : ∀ s, (f s).out ≠ o) : (r.then f).out ≠ o := by
  cases ho : r.out with
  | ok => rw [Res.then_ok ho]; exact h2 _
  | runtimeError => rw [Res.then_not_ok (by simp [ho])]; rw [ho]; rw [ho] at h1; exact h1
  | fuelOut => rw [Res.then_not_ok (by simp [ho])]; rw [ho]; rw [ho] at h1; exact h1

theorem Res.mem_then_sent {r : Res} {f : ManagerState → Res} {d : Nat × Msg}
    (h : d ∈ r.sent) : d ∈ (r.then f).sent := by
  cases ho : r.out with
  | ok => rw [Res.then_ok ho]; exact List.mem_append_left _ h
  | runtimeError => rw [Res.then_not_ok (by simp [ho])]; exact h
  | fuelOut => rw [Res.then_not_ok (by simp [ho])]; exact h

/-! ### Basic facts about `run` -/

theorem run_zero (fail : List Nat) (op : Op) (s : ManagerState) :
    (run fail 0 op s).state = s ∧ (run fail 0 op s).sent = [] := by
  cases op with
  | leave_all u pending => cases pending <;> simp [run]
  | disconnect_all u pending => cases pending <;> simp [run]
  | broadcast_go m r excl ms0 pending => cases pending <;> simp [run]
  | _ => simp [run]

theorem run_leave_all_nil (fail : List Nat) (fuel : Nat) (u : String) (s : ManagerState) :
    run fail fuel (.leave_all u []) s = ⟨s, [], .ok⟩ := by
  cases fuel <;> simp [run]

theorem run_disconnect_all_nil (fail : List Nat) (fuel : Nat) (u : String) (s : ManagerState) :
    run fail fuel (.disconnect_all u []) s = ⟨s, [], .ok⟩ := by
  cases fuel <;> simp [run]

theorem run_broadcast_go_nil (fail : List Nat) (fuel : Nat) (m : Msg) (r : String)
    (excl : Option String) (ms0 : List String) (s : ManagerState) :
    run fail fuel (.broadcast_go m r excl ms0 []) s = ⟨s, [], .ok⟩ := by
  cases fuel <;> simp [run]

/-! ### Monotonicity of the cascade operations -/

theorem StateLe.rfl (s : ManagerState) : StateLe s s :=
  ⟨fun _ _ h => h, fun _ _ h => h, fun _ _ h => h⟩

theorem StateLe.trans {s3 s2 s1 : ManagerState}
    (h32 : StateLe s3 s2) (h21 : StateLe s2 s1) : StateLe s3 s1 :=
  ⟨fun v c h => h21.1 v c (h32.1 v c h),
   fun r v h => h21.2.1 r v (h32.2.1 r v h),
   fun v r h => h21.2.2 v r (h32.2.2 v r h)⟩

theorem statele_seq {r : Res} {f : ManagerState → Res} {s : ManagerState}
    (h1 : StateLe r.state s) (h2 : ∀ s2, StateLe (f s2).state s2) :
    StateLe (r.then f).state s := by
  rcases Res.then_state_cases r f with h | ⟨_, h⟩
  · rw [h]; exact h1
  · rw [h]; exact StateLe.trans (h2 r.state) h1

theorem statele_set_active (s : ManagerState) (l : List (String × List Nat))
    (h : ∀ v c, c ∈ ((alook l v).getD []) → c ∈ aconns s v) :
    StateLe { s with active_connections := l } s :=
  ⟨fun v c hc => h v c hc, fun _ _ hv => hv, fun _ _ hr => hr⟩

theorem statele_set_rooms_map (s : ManagerState) (l : List (String × List String))
    (h : ∀ r v, v ∈ ((alook l r).getD []) → v ∈ members s r) :
    StateLe { s with room_subscriptions := l } s :=
  ⟨fun _ _ hc => hc, h, fun _ _ hr => hr⟩

theorem statele_set_user_rooms (s : ManagerState) (l : List (String × List String))
    (h : ∀ v r, r ∈ ((alook l v).getD []) → r ∈ rooms s v) :
    StateLe { s with user_rooms := l } s :=
  ⟨fun _ _ hc => hc, fun _ _ hv => hv, h⟩

theorem statele_adel_active (s : ManagerState) (u : String) :
    StateLe { s with active_connections := adel s.active_connections u } s := by
  apply statele_set_active
  intro v c hc
  by_cases hv : v = u
  · subst hv; rw [alook_adel_self] at hc; simp at hc
  · rw [alook_adel_ne _ hv] at hc; exact hc

theorem statele_aset_active (s : ManagerState) (u : String) (cs2 : List Nat)
    (h : ∀ c, c ∈ cs2 → c ∈ aconns s u) :
    StateLe { s with active_connections := aset s.active_connections u cs2 } s := by
  apply statele_set_active
  intro v c hc
  by_cases hv : v = u
  · subst hv; rw [alook_aset_self] at hc; exact h c (by simpa using hc)
  · rw [alook_aset_ne _ _ hv] at hc; exact hc

theorem statele_adel_rooms_map (s : ManagerState) (r : String) :
    StateLe { s with room_subscriptions := adel s.room_subscriptions r } s := by
  apply statele_set_rooms_map
  intro r' v hc
  by_cases hr : r' = r
  · subst hr; rw [alook_adel_self] at hc; simp at hc
  · rw [alook_adel_ne _ hr] at hc; exact hc

theorem statele_aset_rooms_map (s : ManagerState) (r : String) (ms2 : List String)
    (h : ∀ v, v ∈ ms2 → v ∈ members s r) :
    StateLe { s with room_subscriptions := aset s.room_subscriptions r ms2 } s := by
  apply statele_set_rooms_map
  intro r' v hc
  by_cases hr : r' = r
  · subst hr; rw [alook_aset_self] at hc; exact h v (by simpa using hc)
  · rw [alook_aset_ne _ _ hr] at hc; exact hc

theorem statele_adel_user_rooms (s : ManagerState) (u : String) :
    StateLe { s with user_rooms := adel s.user_rooms u } s := by
  apply statele_set_user_rooms
  intro v r hc
  by_cases hv : v = u
  · subst hv; rw [alook_adel_self] at hc; simp at hc
  · rw [alook_adel_ne _ hv] at hc; exact hc

theorem statele_aset_user_rooms (s : ManagerState) (u : String) (rs2 : List String)
    (h : ∀ r, r ∈ rs2 → r ∈ rooms s u) :
    StateLe { s with user_rooms := aset s.user_rooms u rs2 } s := by
  apply statele_set_user_rooms
  intro v r hc
  by_cases hv : v = u
  · subst hv; rw [alook_aset_self] at hc; exact h r (by simpa using hc)
  · rw [alook_aset_ne _ _ hv] at hc; exact hc

theorem statele_leave_room_rooms_map (s : ManagerState) (u r : String) :
    StateLe (leave_room_rooms_map s u r) s := by
  unfold leave_room_rooms_map
  cases hms : alook s.room_subscriptions r with
  | none => exact StateLe.rfl s
  | some ms =>
    simp only []
    split
    · exact statele_adel_rooms_map s r
    · apply statele_aset_rooms_map
      intro v hv
      simp [members, hms]
      exact (mem_sdiscard.mp hv).1

theorem statele_leave_room_state (s : ManagerState) (u r : String) :
    StateLe (leave_room_state s u r) s := by
  unfold leave_room_state
  refine StateLe.trans ?_ (statele_leave_room_rooms_map s u r)
  cases hrs : alook (leave_room_rooms_map s u r).user_rooms u with
  | none =>
    simp only [hrs]
    exact StateLe.rfl _
  | some rs =>
    simp only [hrs]
    apply statele_aset_user_rooms
    intro r2 hr2
    simp [rooms, hrs]
    exact (mem_sdiscard.mp hr2).1

/-! ### Characterization of the pure state changes -/

theorem active_connect_state (s : ManagerState) (ws : Nat) (u : String) (v : String) :
    aconns (connect_state s ws u) v = if v = u then aconns s u ++ [ws] else aconns s v := by
  unfold connect_state aconns
  by_cases hv : v = u
  · subst hv; simp [alook_aset_self]
  · simp [hv, alook_aset_ne _ _ hv]

theorem members_lrm (s : ManagerState) (u r : String) (r2 : String) :
    members (leave_room_rooms_map s u r) r2 =
      if r2 = r then sdiscard (members s r) u else members s r2 := by
  unfold leave_room_rooms_map
  cases halook : alook s.room_subscriptions r with
  | none =>
    by_cases hr : r2 = r
    · subst hr; simp [members, halook, sdiscard]
    · simp [hr]
  | some ms =>
    simp only []
    by_cases hemp : (sdiscard ms u).isEmpty = true
    · rw [if_pos hemp]
      by_cases hr : r2 = r
      · subst hr
        simp [members, alook_adel_self, halook, List.isEmpty_iff.mp hemp]
      · simp [members, hr, alook_adel_ne _ hr]
    · rw [if_neg hemp]
      by_cases hr : r2 = r
      · subst hr; simp [members, alook_aset_self, halook]
      · simp [members, hr, alook_aset_ne _ _ hr]

theorem rooms_lrm (s : ManagerState) (u r : String) (v : String) :
    rooms (leave_room_rooms_map s u r) v = rooms s v := by
  unfold leave_room_rooms_map
  cases halook : alook s.room_subscriptions r with
  | none => rfl
  | some ms =>
    simp only []
    by_cases hemp : (sdiscard ms u).isEmpty = true
    · rw [if_pos hemp]; rfl
    · rw [if_neg hemp]; rfl

theorem active_lrm (s : ManagerState) (u r : String) :
    (leave_room_rooms_map s u r).active_connections = s.active_connections := by
  unfold leave_room_rooms_map
  cases halook : alook s.room_subscriptions r with
  | none => rfl
  | some ms =>
    simp only []
    by_cases hemp : (sdiscard ms u).isEmpty = true
    · rw [if_pos hemp]
    · rw [if_neg hemp]

theorem user_rooms_lrm (s : ManagerState) (u r : String) :
    (leave_room_rooms_map s u r).user_rooms = s.user_rooms := by
  unfold leave_room_rooms_map
  cases halook : alook s.room_subscriptions r with
  | none => rfl
  | some ms =>
    simp only []
    by_cases hemp : (sdiscard ms u).isEmpty = true
    · rw [if_pos hemp]
    · rw [if_neg hemp]

theorem members_lrs (s : ManagerState) (u r : String) (r2 : String) :
    members (leave_room_state s u r) r2 =
      if r2 = r then sdiscard (members s r) u else members s r2 := by
  unfold leave_room_state
  cases hrs : alook (leave_room_rooms_map s u r).user_rooms u with
  | none => simp only [hrs]; exact members_lrm s u r r2
  | some rs =>
    simp only [hrs]
    exact members_lrm s u r r2

theorem rooms_lrs (s : ManagerState) (u r : String) (v : String) :
    rooms (leave_room_state s u r) v =
      if v = u then sdiscard (rooms s u) r else rooms s v := by
  unfold leave_room_state
  cases hrs : alook (leave_room_rooms_map s u r).user_rooms u with
  | none =>
    simp only [hrs]
    rw [rooms_lrm]
    rw [user_rooms_lrm] at hrs
    by_cases hv : v = u
    · rw [hv, if_pos rfl]
      unfold rooms
      rw [hrs]
      simp [sdiscard]
    · rw [if_neg hv]
  | some rs =>
    simp only [hrs]
    rw [user_rooms_lrm] at hrs
    have hrsval : rooms s u = rs := by
      unfold rooms; rw [hrs]; rfl
    by_cases hv : v = u
    · rw [hv, if_pos rfl, hrsval]
      have : rooms { leave_room_rooms_map s u r with
          user_rooms := aset (leave_room_rooms_map s u r).user_rooms u (sdiscard rs r) } u =
          (alook (aset (leave_room_rooms_map s u r).user_rooms u (sdiscard rs r)) u).getD [] :=
        rfl
      rw [this, alook_aset_self]
      rfl
    · rw [if_neg hv]
      have : rooms { leave_room_rooms_map s u r with
          user_rooms := aset (leave_room_rooms_map s u r).user_rooms u (sdiscard rs r) } v =
          (alook (aset (leave_room_rooms_map s u r).user_rooms u (sdiscard rs r)) v).getD [] :=
        rfl
      rw [this, alook_aset_ne _ _ hv]
      rw [show (alook (leave_room_rooms_map s u r).user_rooms v).getD [] =
        rooms (leave_room_rooms_map s u r) v from rfl, rooms_lrm]

theorem active_lrs (s : ManagerState) (u r : String) :
    (leave_room_state s u r).active_connections = s.active_connections := by
  unfold leave_room_state
  cases hrs : alook (leave_room_rooms_map s u r).user_rooms u with
  | none => simp only [hrs]; exact active_lrm s u r
  | some rs => simp only [hrs]; exact active_lrm s u r

theorem room_subs_lrs (s : ManagerState) (u r : String) :
    (leave_room_state s u r).room_subscriptions =
      (leave_room_rooms_map s u r).room_subscriptions := by
  unfold leave_room_state
  cases hrs : alook (leave_room_rooms_map s u r).user_rooms u with
  | none => simp only [hrs]
  | some rs => simp only [hrs]

/-! ### Preservation of the structural invariants -/

theorem wf_empty : WF ⟨[], [], []⟩ := by
  refine ⟨?_, ?_, ?_⟩
  · intro u cs h; simp [alook] at h
  · intro r ms h; simp [alook] at h
  · intro u r; simp [members, rooms, alook]

theorem wf_seq {r : Res} {f : ManagerState → Res}
    (h1 : WF r.state) (h2 : ∀ s2, WF s2 → WF (f s2).state) : WF (r.then f).state := by
  rcases Res.then_state_cases r f with h | ⟨_, h⟩
  · rw [h]; exact h1
  · rw [h]; exact h2 _ h1

theorem wf_connect_state {s : ManagerState} (hwf : WF s) (ws : Nat) (u : String) :
    WF (connect_state s ws u) := by
  refine ⟨?_, hwf.roomsNE, hwf.bidir⟩
  intro v cs h
  by_cases hv : v = u
  · subst hv
    rw [show (connect_state s ws v).active_connections =
      aset s.active_connections v (aconns s v ++ [ws]) from rfl, alook_aset_self] at h
    cases h
    simp
  · rw [show (connect_state s ws u).active_connections =
      aset s.active_connections u (aconns s u ++ [ws]) from rfl, alook_aset_ne _ _ hv] at h
    exact hwf.activeNE v cs h

theorem wf_join_room_state {s : ManagerState} (hwf : WF s) (u r : String) :
    WF (join_room_state s u r) := by
  refine ⟨hwf.activeNE, ?_, ?_⟩
  · intro r2 ms h
    by_cases hr : r2 = r
    · subst hr
      rw [show (join_room_state s u r2).room_subscriptions =
        aset s.room_subscriptions r2 (sadd (members s r2) u) from rfl, alook_aset_self] at h
      cases h
      exact sadd_ne_nil
    · rw [show (join_room_state s u r).room_subscriptions =
        aset s.room_subscriptions r (sadd (members s r) u) from rfl, alook_aset_ne _ _ hr] at h
      exact hwf.roomsNE r2 ms h
  · intro v r2
    have hmem : members (join_room_state s u r) r2 =
        if r2 = r then sadd (members s r) u else members s r2 := by
      unfold join_room_state members
      by_cases hr : r2 = r
      · subst hr; simp [alook_aset_self]
      · simp [hr, alook_aset_ne _ _ hr]
    have hroom : rooms (join_room_state s u r) v =
        if v = u then sadd (rooms s u) r else rooms s v := by
      unfold join_room_state rooms
      by_cases hv : v = u
      · subst hv; simp [alook_aset_self]
      · simp [hv, alook_aset_ne _ _ hv]
    rw [hmem, hroom]
    by_cases hv : v = u <;> by_cases hr : r2 = r
    · subst hv; subst hr
      simp [mem_sadd]
    · subst hv
      rw [if_pos rfl, if_neg hr, mem_sadd]
      constructor
      · intro h
        exact Or.inl ((hwf.bidir v r2).mp h)
      · rintro (h | h)
        · exact (hwf.bidir v r2).mpr h
        · exact absurd h hr
    · subst hr
      rw [if_neg hv, if_pos rfl, mem_sadd]
      constructor
      · rintro (h | h)
        · exact (hwf.bidir v r2).mp h
        · exact absurd h hv
      · intro h
        exact Or.inl ((hwf.bidir v r2).mpr h)
    · rw [if_neg hv, if_neg hr]
      exact hwf.bidir v r2

theorem wf_leave_room_state {s : ManagerState} (hwf : WF s) (u r : String) :
    WF (leave_room_state s u r) := by
  refine ⟨?_, ?_, ?_⟩
  · intro v cs h
    rw [active_lrs] at h
    exact hwf.activeNE v cs h
  · intro r2 ms h
    rw [room_subs_lrs] at h
    unfold leave_room_rooms_map at h
    cases halook : alook s.room_subscriptions r with
    | none =>
      rw [halook] at h
      exact hwf.roomsNE r2 ms h
    | some ms0 =>
      rw [halook] at h
      simp only [] at h
      by_cases hemp : (sdiscard ms0 u).isEmpty = true
      · rw [if_pos hemp] at h
        have h2 : alook (adel s.room_subscriptions r) r2 = some ms := h
        by_cases hr : r2 = r
        · subst hr; rw [alook_adel_self] at h2; cases h2
        · rw [alook_adel_ne _ hr] at h2
          exact hwf.roomsNE r2 ms h2
      · rw [if_neg hemp] at h
        have h2 : alook (aset s.room_subscriptions r (sdiscard ms0 u)) r2 = some ms := h
        by_cases hr : r2 = r
        · subst hr
          rw [alook_aset_self] at h2
          cases h2
          intro hnil
          rw [hnil] at hemp
          simp at hemp
        · rw [alook_aset_ne _ _ hr] at h2
          exact hwf.roomsNE r2 ms h2
  · intro v r2
    rw [members_lrs, rooms_lrs]
    by_cases hv : v = u <;> by_cases hr : r2 = r
    · subst hv; subst hr
      rw [if_pos rfl, if_pos rfl]
      constructor
      · intro h; exact absurd rfl (mem_sdiscard.mp h).2
      · intro h; exact absurd rfl (mem_sdiscard.mp h).2
    · subst hv
      rw [if_pos rfl, if_neg hr, mem_sdiscard]
      constructor
      · intro h; exact ⟨(hwf.bidir v r2).mp h, hr⟩
      · intro h; exact (hwf.bidir v r2).mpr h.1
    · subst hr
      rw [if_neg hv, if_pos rfl, mem_sdiscard]
      constructor
      · intro h; exact (hwf.bidir v r2).mp h.1
      · intro h; exact ⟨(hwf.bidir v r2).mpr h, hv⟩
    · rw [if_neg hv, if_neg hr]
      exact hwf.bidir v r2

theorem wf_adel_active {s : ManagerState} (hwf : WF s) (u : String) :
    WF { s with active_connections := adel s.active_connections u } := by
  refine ⟨?_, hwf.roomsNE, hwf.bidir⟩
  intro v cs h
  by_cases hv : v = u
  · subst hv
    rw [show ({ s with active_connections := adel s.active_connections v } :
        ManagerState).active_connections = adel s.active_connections v from rfl,
      alook_adel_self] at h
    cases h
  · rw [show ({ s with active_connections := adel s.active_connections u } :
        ManagerState).active_connections = adel s.active_connections u from rfl,
      alook_adel_ne _ hv] at h
    exact hwf.activeNE v cs h

theorem wf_aset_active_ne_nil {s : ManagerState} (hwf : WF s) (u : String)
    {cs2 : List Nat} (hne : cs2 ≠ []) :
    WF { s with active_connections := aset s.active_connections u cs2 } := by
  refine ⟨?_, hwf.roomsNE, hwf.bidir⟩
  intro v cs h
  by_cases hv : v = u
  · subst hv
    rw [show ({ s with active_connections := aset s.active_connections v cs2 } :
        ManagerState).active_connections = aset s.active_connections v cs2 from rfl,
      alook_aset_self] at h
    cases h
    exact hne
  · rw [show ({ s with active_connections := aset s.active_connections u cs2 } :
        ManagerState).active_connections = aset s.active_connections u cs2 from rfl,
      alook_aset_ne _ _ hv] at h
    exact hwf.activeNE v cs h

theorem wf_adel_user_rooms_of_empty {s : ManagerState} (hwf : WF s) (u : String)
    (hempty : rooms s u = []) :
    WF { s with user_rooms := adel s.user_rooms u } := by
  refine ⟨hwf.activeNE, hwf.roomsNE, ?_⟩
  intro v r
  have hroom : rooms ({ s with user_rooms := adel s.user_rooms u } : ManagerState) v =
      if v = u then [] else rooms s v := by
    unfold rooms
    by_cases hv : v = u
    · subst hv; simp [alook_adel_self]
    · simp [hv, alook_adel_ne _ hv]
  rw [show members ({ s with user_rooms := adel s.user_rooms u } : ManagerState) r =
    members s r from rfl, hroom]
  by_cases hv : v = u
  · subst hv
    rw [if_pos rfl]
    constructor
    · intro h
      have := (hwf.bidir v r).mp h
      rw [hempty] at this
      simp at this
    · intro h; simp at h
  · rw [if_neg hv]
    exact hwf.bidir v r

/-- The cascade operations never add a connection or a membership. -/
theorem run_shrink (fail : List Nat) :
    ∀ (fuel : Nat) (op : Op) (s : ManagerState), op.casc = true →
      StateLe (run fail fuel op s).state s := by
  intro fuel
  induction fuel with
  | zero =>
    intro op s _
    rw [(run_zero fail op s).1]
    exact StateLe.rfl s
  | succ n ih =>
    intro op s hc
    cases op with
    | connect ws u => simp [Op.casc] at hc
    | join_room u r => simp [Op.casc] at hc
    | disconnect ws u =>
      cases halook : alook s.active_connections u with
      | none =>
        simp only [run, halook]
        exact StateLe.rfl s
      | some conns =>
        have hconn : aconns s u = conns := by simp [aconns, halook]
        by_cases hemp : (if conns.contains ws then conns.erase ws else conns).isEmpty = true
        · cases hur : alook s.user_rooms u with
          | none =>
            simp only [run, halook, hemp, if_true, hur]
            exact statele_adel_active s u
          | some rooms0 =>
            simp only [run, halook, hemp, if_true, hur]
            exact StateLe.trans
              (statele_seq (ih (.leave_all u rooms0) _ rfl)
                (fun s2 => statele_adel_user_rooms s2 u))
              (statele_adel_active s u)
        · simp only [run, halook]
          rw [if_neg hemp]
          apply statele_aset_active
          intro c hcc
          rw [hconn]
          by_cases hcont : conns.contains ws = true
          · rw [if_pos hcont] at hcc
            exact List.mem_of_mem_erase hcc
          · rw [if_neg hcont] at hcc
            exact hcc
    | leave_room u r =>
      simp only [run]
      exact StateLe.trans
        (ih (.broadcast (.user_left_room r u) r (some u)) _ rfl)
        (statele_leave_room_state s u r)
    | send_personal m u =>
      cases halook : alook s.active_connections u with
      | none =>
        simp only [run, halook]
        exact StateLe.rfl s
      | some conns =>
        simp only [run, halook]
        exact statele_seq (StateLe.rfl s)
          (fun s1 => ih (.disconnect_all u (conns.filter (fun c => fail.contains c))) s1 rfl)
    | broadcast m r excl =>
      cases halook : alook s.room_subscriptions r with
      | none =>
        simp only [run, halook]
        exact StateLe.rfl s
      | some ms =>
        simp only [run, halook]
        exact ih (.broadcast_go m r excl ms ms) s rfl
    | leave_all u pending =>
      cases pending with
      | nil =>
        simp only [run]
        exact StateLe.rfl s
      | cons r rest =>
        simp only [run]
        exact statele_seq (ih (.leave_room u r) s rfl)
          (fun s1 => ih (.leave_all u rest) s1 rfl)
    | disconnect_all u pending =>
      cases pending with
      | nil =>
        simp only [run]
        exact StateLe.rfl s
      | cons c rest =>
        simp only [run]
        exact statele_seq (ih (.disconnect c u) s rfl)
          (fun s1 => ih (.disconnect_all u rest) s1 rfl)
    | broadcast_go m r excl ms0 pending =>
      cases pending with
      | nil =>
        simp only [run]
        exact StateLe.rfl s
      | cons v rest =>
        simp only [run]
        apply statele_seq
        · by_cases hex : excludedBy excl v = true
          · rw [if_pos hex]
            exact StateLe.rfl s
          · rw [if_neg hex]
            cases halook : alook s.active_connections v with
            | none => exact StateLe.rfl s
            | some conns =>
              simp only []
              exact statele_seq (StateLe.rfl s)
                (fun s1 => ih (.disconnect_all v (conns.filter (fun c => fail.contains c))) s1 rfl)
        · intro s1
          by_cases hchk : alook s1.room_subscriptions r = some ms0
          · rw [if_pos hchk]
            exact ih (.broadcast_go m r excl ms0 rest) s1 rfl
          · rw [if_neg hchk]
            exact StateLe.rfl s1

/-! ### The disconnect cascade removes every membership -/

theorem rooms_leave_room_state_self (s : ManagerState) (u r : String) :
    r ∉ rooms (leave_room_state s u r) u := by
  rw [rooms_lrs, if_pos rfl]
  exact sdiscard_not_mem _ _

theorem leave_room_removes (fail : List Nat) (n : Nat) (u r : String) (s : ManagerState) :
    r ∉ rooms (run fail (n+1) (.leave_room u r) s).state u := by
  simp only [run]
  intro hmem
  exact rooms_leave_room_state_self s u r
    ((run_shrink fail n (.broadcast (.user_left_room r u) r (some u)) _ rfl).2.2 u r hmem)

theorem leave_all_removes (fail : List Nat) :
    ∀ (n : Nat) (u : String) (L : List String) (s : ManagerState),
      (run fail n (.leave_all u L) s).out = .ok →
      ∀ r ∈ L, r ∉ rooms (run fail n (.leave_all u L) s).state u := by
  intro n
  induction n with
  | zero =>
    intro u L s hok r hr
    cases L with
    | nil => simp at hr
    | cons a rest => simp [run] at hok
  | succ n ih =>
    intro u L s hok r hr
    cases L with
    | nil => simp at hr
    | cons a rest =>
      simp only [run] at hok ⊢
      have hsplit := Res.then_out_ok hok
      rw [Res.then_ok hsplit.1]
      have hok1 := hsplit.1
      have hok2 := hsplit.2
      rcases List.mem_cons.mp hr with rfl | hrest
      · intro hmem
        have hout : r ∈ rooms (run fail n (.leave_room u r) s).state u :=
          (run_shrink fail n (.leave_all u rest) _ rfl).2.2 u r hmem
        cases n with
        | zero => simp [run] at hok1
        | succ n2 => exact leave_room_removes fail n2 u r s hout
      · exact ih u rest _ hok2 r hrest

/-- Every operation preserves the structural invariants. -/
theorem run_wf (fail : List Nat) :
    ∀ (fuel : Nat) (op : Op) (s : ManagerState), WF s → WF (run fail fuel op s).state := by
  intro fuel
  induction fuel with
  | zero =>
    intro op s h
    rw [(run_zero fail op s).1]
    exact h
  | succ n ih =>
    intro op s hwf
    cases op with
    | connect ws u =>
      simp only [run]
      exact ih _ _ (wf_connect_state hwf ws u)
    | join_room u r =>
      simp only [run]
      exact wf_seq (ih _ _ (wf_join_room_state hwf u r)) (fun s2 h2 => ih _ _ h2)
    | disconnect ws u =>
      cases halook : alook s.active_connections u with
      | none =>
        simp only [run, halook]
        exact hwf
      | some conns =>
        by_cases hemp : (if conns.contains ws then conns.erase ws else conns).isEmpty = true
        · cases hur : alook s.user_rooms u with
          | none =>
            simp only [run, halook, hemp, if_true, hur]
            exact wf_adel_active hwf u
          | some rooms0 =>
            simp only [run, halook, hemp, if_true, hur]
            rcases Res.then_state_cases
              (run fail n (.leave_all u rooms0)
                { s with active_connections := adel s.active_connections u })
              (fun s2 => (⟨{ s2 with user_rooms := adel s2.user_rooms u }, [], .ok⟩ : Res))
              with h | ⟨hok, h⟩
            · rw [h]
              exact ih _ _ (wf_adel_active hwf u)
            · rw [h]
              apply wf_adel_user_rooms_of_empty (ih _ _ (wf_adel_active hwf u))
              apply List.eq_nil_iff_forall_not_mem.mpr
              intro x hx
              have hsub : x ∈ rooms ({ s with
                  active_connections := adel s.active_connections u } : ManagerState) u :=
                (run_shrink fail n (.leave_all u rooms0) _ rfl).2.2 u x hx
              have hx0 : x ∈ rooms0 := by
                have : rooms ({ s with
                    active_connections := adel s.active_connections u } : ManagerState) u =
                    rooms0 := by
                  simp [rooms, hur]
                rw [this] at hsub
                exact hsub
              exact leave_all_removes fail n u rooms0 _ hok x hx0 hx
        · simp only [run, halook]
          rw [if_neg hemp]
          exact wf_aset_active_ne_nil hwf u (fun hnil => hemp (by rw [hnil]; rfl))
    | leave_room u r =>
      simp only [run]
      exact ih _ _ (wf_leave_room_state hwf u r)
    | send_personal m u =>
      cases halook : alook s.active_connections u with
      | none =>
        simp only [run, halook]
        exact hwf
      | some conns =>
        simp only [run, halook]
        exact wf_seq hwf (fun s1 h1 => ih _ _ h1)
    | broadcast m r excl =>
      cases halook : alook s.room_subscriptions r with
      | none =>
        simp only [run, halook]
        exact hwf
      | some ms =>
        simp only [run, halook]
        exact ih _ _ hwf
    | leave_all u pending =>
      cases pending with
      | nil => simp only [run]; exact hwf
      | cons a rest =>
        simp only [run]
        exact wf_seq (ih _ _ hwf) (fun s1 h1 => ih _ _ h1)
    | disconnect_all u pending =>
      cases pending with
      | nil => simp only [run]; exact hwf
      | cons c rest =>
        simp only [run]
        exact wf_seq (ih _ _ hwf) (fun s1 h1 => ih _ _ h1)
    | broadcast_go m r excl ms0 pending =>
      cases pending with
      | nil => simp only [run]; exact hwf
      | cons v rest =>
        simp only [run]
        apply wf_seq
        · by_cases hex : excludedBy excl v = true
          · rw [if_pos hex]; exact hwf
          · rw [if_neg hex]
            cases halook : alook s.active_connections v with
            | none => exact hwf
            | some conns =>
              simp only []
              exact wf_seq hwf (fun s1 h1 => ih _ _ h1)
        · intro s1 h1
          by_cases hchk : alook s1.room_subscriptions r = some ms0
          · rw [if_pos hchk]
            exact ih _ _ h1
          · rw [if_neg hchk]
            exact h1

/-- Every reachable state satisfies the structural invariants. -/
theorem reachable_wf : ∀ {s : ManagerState}, Reachable s → WF s := by
  intro s h
  induction h with
  | empty => exact wf_empty
  | step fail fuel op hr ih => exact run_wf fail fuel op _ ih


/-! ### Behaviour when no registered connection fails -/

theorem then_pure (s : ManagerState) (tr : List (Nat × Msg)) (f : ManagerState → Res) :
    (⟨s, tr, .ok⟩ : Res).then f = ⟨(f s).state, tr ++ (f s).sent, (f s).out⟩ := rfl

theorem list_filter_nofail {fail : List Nat} {conns : List Nat}
    (h : ∀ c ∈ conns, fail.contains c = false) :
    conns.filter (fun c => !(fail.contains c)) = conns ∧
    conns.filter (fun c => fail.contains c) = [] := by
  constructor
  · apply List.filter_eq_self.mpr
    intro c hc
    rw [h c hc]
    rfl
  · apply List.filter_eq_nil_iff.mpr
    intro c hc
    rw [h c hc]
    simp

theorem nofailing_aconns {fail : List Nat} {s : ManagerState} (h : NoFailing fail s)
    (u : String) : ∀ c ∈ aconns s u, fail.contains c = false := by
  intro c hc
  unfold aconns at hc
  cases halook : alook s.active_connections u with
  | none => rw [halook] at hc; simp at hc
  | some cs =>
    rw [halook] at hc
    exact h (u, cs) (alook_mem halook) c hc

theorem nofailing_of_active_eq {fail : List Nat} {s s2 : ManagerState}
    (he : s2.active_connections = s.active_connections) (h : NoFailing fail s) :
    NoFailing fail s2 := by
  intro p hp c hc
  rw [he] at hp
  exact h p hp c hc

/-- Behaviour of `send_personal_message` when none of the user's connections fails:
one delivery per registered connection, in order, and no state change. -/
theorem send_nofail (fail : List Nat) (n : Nat) (m : Msg) (u : String) (s : ManagerState)
    (h : ∀ c ∈ aconns s u, fail.contains c = false) :
    run fail (n+1) (.send_personal m u) s =
      ⟨s, (aconns s u).map (fun c => (c, m)), .ok⟩ := by
  cases halook : alook s.active_connections u with
  | none =>
    have hc : aconns s u = [] := by unfold aconns; rw [halook]; rfl
    simp only [run, halook]
    rw [hc]
    rfl
  | some conns =>
    have hc : aconns s u = conns := by unfold aconns; rw [halook]; rfl
    rw [hc] at h
    simp only [run, halook]
    rw [(list_filter_nofail h).1, (list_filter_nofail h).2, then_pure,
      run_disconnect_all_nil, hc]
    simp

theorem broadcast_go_nofail (fail : List Nat) :
    ∀ (fuel : Nat) (m : Msg) (r : String) (excl : Option String) (ms0 : List String)
      (pending : List String) (s : ManagerState),
      NoFailing fail s → alook s.room_subscriptions r = some ms0 →
      (run fail fuel (.broadcast_go m r excl ms0 pending) s).state = s ∧
      (run fail fuel (.broadcast_go m r excl ms0 pending) s).out ≠ .runtimeError ∧
      ((run fail fuel (.broadcast_go m r excl ms0 pending) s).out = .ok →
        (run fail fuel (.broadcast_go m r excl ms0 pending) s).sent =
          bcast_sends fail m excl s pending) := by
  intro fuel
  induction fuel with
  | zero =>
    intro m r excl ms0 pending s hnf hms
    cases pending with
    | nil => refine ⟨rfl, by simp [run], ?_⟩; intro _; simp [run, bcast_sends]
    | cons v rest => refine ⟨rfl, by simp [run], ?_⟩; intro h; simp [run] at h
  | succ n ih =>
    intro m r excl ms0 pending s hnf hms
    cases pending with
    | nil => refine ⟨rfl, by simp [run], ?_⟩; intro _; simp [run, bcast_sends]
    | cons v rest =>
      have hrec := ih m r excl ms0 rest s hnf hms
      by_cases hex : excludedBy excl v = true
      · simp only [run]
        rw [if_pos hex, then_pure]
        rw [if_pos hms]
        refine ⟨hrec.1, hrec.2.1, ?_⟩
        intro hok
        have h3 := hrec.2.2 hok
        simp [bcast_sends, hex, h3]
      · cases halook : alook s.active_connections v with
        | none =>
          simp only [run]
          rw [if_neg hex]
          simp only [halook, then_pure]
          rw [if_pos hms]
          refine ⟨hrec.1, hrec.2.1, ?_⟩
          intro hok
          have hav : aconns s v = [] := by unfold aconns; rw [halook]; rfl
          have h3 := hrec.2.2 hok
          simp [bcast_sends, hex, hav, h3]
        | some conns =>
          have hcf : ∀ c ∈ conns, fail.contains c = false := by
            intro c hcc
            exact hnf (v, conns) (alook_mem halook) c hcc
          simp only [run]
          rw [if_neg hex]
          simp only [halook]
          rw [(list_filter_nofail hcf).2, then_pure, run_disconnect_all_nil]
          simp only [List.append_nil]
          rw [then_pure]
          rw [if_pos hms]
          refine ⟨hrec.1, hrec.2.1, ?_⟩
          intro hok
          have hav : aconns s v = conns := by unfold aconns; rw [halook]; rfl
          have h3 := hrec.2.2 hok
          simp [bcast_sends, hex, hav, h3]

theorem broadcast_nofail (fail : List Nat) (n : Nat) (m : Msg) (r : String)
    (excl : Option String) (s : ManagerState) (hnf : NoFailing fail s) :
    (run fail (n+1) (.broadcast m r excl) s).state = s ∧
    (run fail (n+1) (.broadcast m r excl) s).out ≠ .runtimeError ∧
    ((run fail (n+1) (.broadcast m r excl) s).out = .ok →
      (run fail (n+1) (.broadcast m r excl) s).sent =
        bcast_sends fail m excl s (members s r)) := by
  cases halook : alook s.room_subscriptions r with
  | none =>
    have hm : members s r = [] := by unfold members; rw [halook]; rfl
    have heq : run fail (n+1) (.broadcast m r excl) s = ⟨s, [], .ok⟩ := by
      simp only [run, halook]
    rw [heq, hm]
    exact ⟨rfl, by simp, fun _ => rfl⟩
  | some ms =>
    have hm : members s r = ms := by unfold members; rw [halook]; rfl
    simp only [run, halook]
    rw [hm]
    exact broadcast_go_nofail fail n m r excl ms ms s hnf halook

/-- Behaviour of `leave_room` when no registered connection fails: the state becomes
exactly `leave_room_state`, no `RuntimeError`, and on completion the
deliveries are the `user_left_room` broadcast to the remaining members. -/
theorem leave_room_nofail (fail : List Nat) (n : Nat) (u r : String) (s : ManagerState)
    (hnf : NoFailing fail s) :
    (run fail (n+1) (.leave_room u r) s).state = leave_room_state s u r ∧
    (run fail (n+1) (.leave_room u r) s).out ≠ .runtimeError ∧
    ((run fail (n+1) (.leave_room u r) s).out = .ok →
      (run fail (n+1) (.leave_room u r) s).sent =
        bcast_sends fail (.user_left_room r u) (some u) (leave_room_state s u r)
          (members (leave_room_state s u r) r)) := by
  have hnf2 : NoFailing fail (leave_room_state s u r) :=
    nofailing_of_active_eq (active_lrs s u r) hnf
  simp only [run]
  cases n with
  | zero =>
    refine ⟨(run_zero fail _ _).1, ?_, ?_⟩
    · simp [run]
    · intro h; simp [run] at h
  | succ n2 =>
    exact broadcast_nofail fail n2 _ r (some u) (leave_room_state s u r) hnf2

/-- The disconnect cascade's room loop when no registered connection
fails: neither the registry nor failure-freedom is disturbed, and no
`RuntimeError` arises. -/
theorem leave_all_nofail (fail : List Nat) :
    ∀ (fuel : Nat) (u : String) (L : List String) (s : ManagerState),
      NoFailing fail s →
      (run fail fuel (.leave_all u L) s).state.active_connections = s.active_connections ∧
      NoFailing fail (run fail fuel (.leave_all u L) s).state ∧
      (run fail fuel (.leave_all u L) s).out ≠ .runtimeError := by
  intro fuel
  induction fuel with
  | zero =>
    intro u L s hnf
    refine ⟨by rw [(run_zero fail _ _).1], ?_, ?_⟩
    · rw [(run_zero fail _ _).1]; exact hnf
    · cases L with
      | nil => simp [run]
      | cons a rest => simp [run]
  | succ n ih =>
    intro u L s hnf
    cases L with
    | nil =>
      rw [run_leave_all_nil fail (n+1) u s]
      exact ⟨rfl, hnf, by simp⟩
    | cons a rest =>
      simp only [run]
      cases n with
      | zero =>
        rw [Res.then_not_ok (by simp [run])]
        refine ⟨by rw [(run_zero fail _ _).1], ?_, ?_⟩
        · rw [(run_zero fail _ _).1]; exact hnf
        · simp [run]
      | succ n2 =>
        have hlr := leave_room_nofail fail n2 u a s hnf
        have hnf2 : NoFailing fail (run fail (n2+1) (.leave_room u a) s).state := by
          rw [hlr.1]
          exact nofailing_of_active_eq (active_lrs s u a) hnf
        have hactive : (run fail (n2+1) (.leave_room u a) s).state.active_connections =
            s.active_connections := by
          rw [hlr.1]
          exact active_lrs s u a
        have hrec := ih u rest (run fail (n2+1) (.leave_room u a) s).state hnf2
        cases hout : (run fail (n2+1) (.leave_room u a) s).out with
        | ok =>
          rw [Res.then_ok hout]
          refine ⟨?_, hrec.2.1, hrec.2.2⟩
          rw [hrec.1, hactive]
        | runtimeError => exact absurd hout hlr.2.1
        | fuelOut =>
          rw [Res.then_not_ok (by rw [hout]; intro h; cases h)]
          exact ⟨hactive, hnf2, by rw [hout]; intro h; cases h⟩

/-! ### Further helper lemmas for the claims -/

theorem mem_adel_ne {α : Type} {l : List (String × α)} {k : String} {p : String × α} :
    p ∈ adel l k → p.1 ≠ k := by
  induction l with
  | nil => simp [adel]
  | cons q rest ih =>
    obtain ⟨a, b⟩ := q
    by_cases ha : a = k
    · simp only [adel, ha, if_true]
      exact ih
    · simp only [adel, ha, if_false]
      intro h
      rcases List.mem_cons.mp h with h1 | h2
      · rw [h1]
        exact ha
      · exact ih h2

theorem filter_eq_singleton {p : Nat → Bool} {cs : List Nat} {x : Nat}
    (hnd : cs.Nodup) (hm : x ∈ cs) (h : ∀ c ∈ cs, (p c = true ↔ c = x)) :
    cs.filter p = [x] := by
  induction cs with
  | nil => simp at hm
  | cons a rest ih =>
    have hnr : a ∉ rest := (List.nodup_cons.mp hnd).1
    have hndr : rest.Nodup := (List.nodup_cons.mp hnd).2
    rcases List.mem_cons.mp hm with heq | hmr
    · have hpa : p a = true := (h a (List.mem_cons_self a rest)).mpr heq.symm
      have hrest : rest.filter p = [] := by
        apply List.filter_eq_nil_iff.mpr
        intro c hc hpc
        have hcx := (h c (List.mem_cons_of_mem a hc)).mp hpc
        rw [hcx, heq] at hc
        exact hnr hc
      rw [List.filter_cons, hrest]
      simp only [hpa, if_true]
      rw [heq]
    · have hax : a ≠ x := by
        intro hax
        rw [hax] at hnr
        exact hnr hmr
      have hpa : p a = false := by
        cases hb : p a with
        | false => rfl
        | true => exact absurd ((h a (List.mem_cons_self a rest)).mp hb) hax
      have := ih hndr hmr (fun c hc => h c (List.mem_cons_of_mem a hc))
      simp [List.filter_cons, hpa, this]

theorem then_id (r : Res) : r.then (fun s1 => ⟨s1, [], .ok⟩) = r := by
  obtain ⟨st, sent, out⟩ := r
  cases out with
  | ok => simp [Res.then]
  | runtimeError => rfl
  | fuelOut => rfl

theorem excludedBy_some (e v : String) :
    excludedBy (some e) v = if e = "" then false else v == e := rfl

theorem mem_bcast_sends {fail : List Nat} {m : Msg} {excl : Option String}
    {s : ManagerState} {ms : List String} {c : Nat} {m2 : Msg} :
    (c, m2) ∈ bcast_sends fail m excl s ms ↔
      m2 = m ∧ ∃ v, v ∈ ms ∧ excludedBy excl v = false ∧ c ∈ aconns s v ∧
        fail.contains c = false := by
  induction ms with
  | nil => simp [bcast_sends]
  | cons v rest ih =>
    simp only [bcast_sends, List.mem_append, ih]
    by_cases hex : excludedBy excl v = true
    · simp only [hex, if_true, List.not_mem_nil, false_or]
      constructor
      · rintro ⟨rfl, w, hw, hwex, hwc, hwf⟩
        exact ⟨rfl, w, List.mem_cons_of_mem v hw, hwex, hwc, hwf⟩
      · rintro ⟨rfl, w, hw, hwex, hwc, hwf⟩
        rcases List.mem_cons.mp hw with rfl | hw2
        · rw [hex] at hwex
          cases hwex
        · exact ⟨rfl, w, hw2, hwex, hwc, hwf⟩
    · have hex2 : excludedBy excl v = false := by
        cases hb : excludedBy excl v with
        | false => rfl
        | true => exact absurd hb hex
      simp only [hex2, Bool.false_eq_true, if_false, List.mem_map, List.mem_filter]
      constructor
      · rintro (⟨c2, ⟨hc2, hcf⟩, heq⟩ | ⟨rfl, w, hw, hwex, hwc, hwf⟩)
        · obtain ⟨rfl, rfl⟩ := Prod.mk.injEq .. ▸ heq
          refine ⟨rfl, v, List.mem_cons_self v rest, hex2, hc2, ?_⟩
          cases hb : fail.contains c2 with
          | false => rfl
          | true => rw [hb] at hcf; cases hcf
        · exact ⟨rfl, w, List.mem_cons_of_mem v hw, hwex, hwc, hwf⟩
      · rintro ⟨rfl, w, hw, hwex, hwc, hwf⟩
        rcases List.mem_cons.mp hw with rfl | hw2
        · left
          exact ⟨c, ⟨hwc, by rw [hwf]; rfl⟩, rfl⟩
        · right
          exact ⟨rfl, w, hw2, hwex, hwc, hwf⟩

/-- Leaving a room one is not in changes nothing in the state, provided the
state satisfies the room-map invariants. -/
theorem lrs_noop {s : ManagerState} {u r : String}
    (hroomsNE : ∀ p ∈ s.room_subscriptions, p.2 ≠ [])
    (hnm : u ∉ members s r) (hnr : r ∉ rooms s u) :
    leave_room_state s u r = s := by
  have h1 : leave_room_rooms_map s u r = s := by
    unfold leave_room_rooms_map
    cases halook : alook s.room_subscriptions r with
    | none => rfl
    | some ms =>
      have hms : members s r = ms := by unfold members; rw [halook]; rfl
      rw [hms] at hnm
      have hd : sdiscard ms u = ms := sdiscard_of_not_mem hnm
      have hne : ms ≠ [] := hroomsNE (r, ms) (alook_mem halook)
      have hemp : ms.isEmpty = false := by
        cases hb : ms.isEmpty with
        | false => rfl
        | true => exact absurd (List.isEmpty_iff.mp hb) hne
      simp only [hd, hemp, Bool.false_eq_true, if_false]
      rw [aset_same halook]
  unfold leave_room_state
  rw [h1]
  dsimp only
  cases halook : alook s.user_rooms u with
  | none => simp only [halook]
  | some rs =>
    simp only [halook]
    have hrs : rooms s u = rs := by unfold rooms; rw [halook]; rfl
    rw [hrs] at hnr
    have hd : sdiscard rs r = rs := sdiscard_of_not_mem hnr
    rw [hd, aset_same halook]

theorem active_set_user_rooms (s : ManagerState) (l : List (String × List String)) :
    ({ s with user_rooms := l } : ManagerState).active_connections =
      s.active_connections := rfl

/-- Behaviour of `disconnect` of a connection that is the only failing one in the whole
registry: never a `RuntimeError`, and on completion the connection is gone
from its user's entry while every other user's entry is untouched. -/
theorem disconnect_single_clean (fail : List Nat) :
    ∀ (fuel : Nat) (u : String) (s : ManagerState) {cs : List Nat} {cfail : Nat},
      alook s.active_connections u = some cs →
      cfail ∈ cs →
      (∀ p ∈ s.active_connections, ∀ c ∈ p.2, (fail.contains c = true ↔ c = cfail)) →
      (∀ p ∈ s.active_connections, p.1 ≠ u → cfail ∉ p.2) →
      (run fail fuel (.disconnect cfail u) s).out ≠ .runtimeError ∧
      ((run fail fuel (.disconnect cfail u) s).out = .ok →
        alook (run fail fuel (.disconnect cfail u) s).state.active_connections u =
          (if cs.erase cfail = [] then none else some (cs.erase cfail)) ∧
        (∀ v, v ≠ u →
          alook (run fail fuel (.disconnect cfail u) s).state.active_connections v =
            alook s.active_connections v)) := by
  intro fuel u s cs cfail hcs hmem honly hunique
  cases fuel with
  | zero =>
    refine ⟨by simp [run], ?_⟩
    intro h
    simp [run] at h
  | succ j =>
    have hcont : cs.contains cfail = true := List.elem_iff.mpr hmem
    by_cases h2 : cs.erase cfail = []
    · have hnf1 : NoFailing fail
          { s with active_connections := adel s.active_connections u } := by
        intro p hp c hc
        have hp2 : p ∈ s.active_connections := mem_adel hp
        have hpne : p.1 ≠ u := mem_adel_ne hp
        have hnc : cfail ∉ p.2 := hunique p hp2 hpne
        cases hb : fail.contains c with
        | false => rfl
        | true =>
          have hcc := (honly p hp2 c hc).mp hb
          rw [hcc] at hc
          exact absurd hc hnc
      cases hur : alook s.user_rooms u with
      | none =>
        have heq : run fail (j+1) (.disconnect cfail u) s =
            ⟨{ s with active_connections := adel s.active_connections u }, [], .ok⟩ := by
          simp only [run, hcs]
          rw [if_pos hcont, h2]
          simp only [List.isEmpty_nil, eq_self_iff_true, if_true, hur]
        rw [heq]
        refine ⟨by simp, ?_⟩
        intro _
        refine ⟨?_, ?_⟩
        · rw [if_pos h2]
          exact alook_adel_self _ _
        · intro v hv
          exact alook_adel_ne _ hv
      | some rooms0 =>
        have heq : run fail (j+1) (.disconnect cfail u) s =
            (run fail j (.leave_all u rooms0)
              { s with active_connections := adel s.active_connections u }).then
              fun s2 => ⟨{ s2 with user_rooms := adel s2.user_rooms u }, [], .ok⟩ := by
          simp only [run, hcs]
          rw [if_pos hcont, h2]
          simp only [List.isEmpty_nil, eq_self_iff_true, if_true, hur]
        rw [heq]
        have hla := leave_all_nofail fail j u rooms0
          { s with active_connections := adel s.active_connections u } hnf1
        cases ho : (run fail j (.leave_all u rooms0)
            { s with active_connections := adel s.active_connections u }).out with
        | ok =>
          rw [Res.then_ok ho]
          refine ⟨by simp, ?_⟩
          intro _
          refine ⟨?_, ?_⟩
          · rw [if_pos h2]
            rw [show (⟨({ (run fail j (.leave_all u rooms0)
                { s with active_connections := adel s.active_connections u }).state with
                user_rooms := adel (run fail j (.leave_all u rooms0)
                  { s with active_connections := adel s.active_connections u
                  }).state.user_rooms u } : ManagerState), [], .ok⟩ : Res).state =
              { (run fail j (.leave_all u rooms0)
                { s with active_connections := adel s.active_connections u }).state with
                user_rooms := adel (run fail j (.leave_all u rooms0)
                  { s with active_connections := adel s.active_connections u
                  }).state.user_rooms u } from rfl]
            rw [active_set_user_rooms, hla.1]
            exact alook_adel_self _ _
          · intro v hv
            rw [show (⟨({ (run fail j (.leave_all u rooms0)
                { s with active_connections := adel s.active_connections u }).state with
                user_rooms := adel (run fail j (.leave_all u rooms0)
                  { s with active_connections := adel s.active_connections u
                  }).state.user_rooms u } : ManagerState), [], .ok⟩ : Res).state =
              { (run fail j (.leave_all u rooms0)
                { s with active_connections := adel s.active_connections u }).state with
                user_rooms := adel (run fail j (.leave_all u rooms0)
                  { s with active_connections := adel s.active_connections u
                  }).state.user_rooms u } from rfl]
            rw [active_set_user_rooms, hla.1]
            exact alook_adel_ne _ hv
        | runtimeError => exact absurd ho hla.2.2
        | fuelOut =>
          rw [Res.then_not_ok (by rw [ho]; intro h; cases h)]
          constructor
          · rw [ho]
            intro h
            cases h
          · intro h
            rw [ho] at h
            cases h
    · have heq : run fail (j+1) (.disconnect cfail u) s =
          ⟨{ s with active_connections := aset s.active_connections u (cs.erase cfail) },
            [], .ok⟩ := by
        have hemp : ¬((cs.erase cfail).isEmpty = true) := by
          intro hb
          exact h2 (List.isEmpty_iff.mp hb)
        simp only [run, hcs]
        rw [if_pos hcont, if_neg hemp]
      rw [heq]
      refine ⟨by simp, ?_⟩
      intro _
      refine ⟨?_, ?_⟩
      · rw [if_neg h2]
        exact alook_aset_self _ _ _
      · intro v hv
        exact alook_aset_ne _ _ hv

/-! ### The claims -/

/-- Claim C1: bidirectional membership invariant.  For every user u and
room r, u is in the member set of r (room_subscriptions) iff r is in the
room set of u (user_rooms); it holds in the initial empty state and is
preserved by every operation of the manager, including the disconnect
cascade, hence by every reachable state. -/
theorem claim1_bidirectional_membership_invariant :
    ∀ s : ManagerState, Reachable s → Bidir s :=
  fun _ h => (reachable_wf h).bidir

theorem claim1_bidirectional_membership_invariant_witness :
    Bidir ⟨[], [], []⟩ :=
  claim1_bidirectional_membership_invariant ⟨[], [], []⟩ Reachable.empty

/-- Claim C2 counterexample: the disconnect cascade does not always remove
every membership.  From the reachable state `exampleStateW` (U with its
only socket 10 in rooms r1 and r2; W with failing socket 11 in r1),
disconnecting U's last connection makes `leave_room(U, r1)` broadcast
`user_left_room` to r1; the send to W fails, the nested disconnect of W
empties and deletes r1's member set mid-iteration, and the set-iterator
`RuntimeError` escapes the cascade before U leaves r2 or `user_rooms[U]`
is deleted — U's registry key is gone, yet U is still a member of r2 and
the reverse index still holds `U ↦ [r2]`: dangling membership survives. -/
theorem claim2_counterexample_cascade_aborted_by_send_failure :
    Reachable exampleStateW ∧
    alook exampleStateW.active_connections "U" = some [10] ∧
    (disconnect [11] 30 10 "U" exampleStateW).out = .runtimeError ∧
    alook (disconnect [11] 30 10 "U" exampleStateW).state.active_connections "U" =
      none ∧
    "U" ∈ members (disconnect [11] 30 10 "U" exampleStateW).state "r2" ∧
    alook (disconnect [11] 30 10 "U" exampleStateW).state.user_rooms "U" =
      some ["r2"] :=
  ⟨Reachable.step [] 9 (.join_room "U" "r2")
      (Reachable.step [] 9 (.join_room "W" "r1")
        (Reachable.step [] 9 (.join_room "U" "r1")
          (Reachable.step [] 5 (.connect 11 "W")
            (Reachable.step [] 5 (.connect 10 "U") Reachable.empty)))),
    by decide, by decide, by decide, by decide, by decide⟩

/-- Claim C2 amended: disconnect cascade on normal completion.  From any
reachable state, when `disconnect` removes the last connection of user u
and the cascade completes normally (no send-failure-triggered
`RuntimeError` escapes mid-cascade, i.e. the run ends `.ok`), u is a
member of no room, no room key with an empty member set remains, and u's
key is gone from both the registry and the reverse index.  When a failing
member connection makes a cascade broadcast raise, the disconnection can
abort mid-cascade and u stays a member of the rooms not yet left (see the
counterexample). -/
theorem claim2_disconnect_cascade_no_dangling (fail : List Nat) (fuel : Nat)
    (ws : Nat) (u : String) (s : ManagerState) (hreach : Reachable s)
    {cs : List Nat} (hcs : alook s.active_connections u = some cs)
    (hlast : (if cs.contains ws then cs.erase ws else cs) = [])
    (hok : (disconnect fail fuel ws u s).out = .ok) :
    (∀ r, u ∉ members (disconnect fail fuel ws u s).state r) ∧
    (∀ r ms, alook (disconnect fail fuel ws u s).state.room_subscriptions r = some ms →
      ms ≠ []) ∧
    alook (disconnect fail fuel ws u s).state.active_connections u = none ∧
    alook (disconnect fail fuel ws u s).state.user_rooms u = none := by
  have hwf := reachable_wf hreach
  cases fuel with
  | zero => simp [disconnect, run] at hok
  | succ n =>
    have heqbody : disconnect fail (n+1) ws u s = run fail (n+1) (.disconnect ws u) s := rfl
    rw [heqbody] at hok ⊢
    cases hur : alook s.user_rooms u with
    | none =>
      have heq : run fail (n+1) (.disconnect ws u) s =
          ⟨{ s with active_connections := adel s.active_connections u }, [], .ok⟩ := by
        simp only [run, hcs]
        rw [hlast]
        simp only [List.isEmpty_nil, eq_self_iff_true, if_true, hur]
      rw [heq]
      refine ⟨?_, ?_, ?_, ?_⟩
      · intro r hm
        have hm2 : u ∈ members s r := hm
        have := (hwf.bidir u r).mp hm2
        unfold rooms at this
        rw [hur] at this
        simp at this
      · intro r ms h
        exact hwf.roomsNE r ms h
      · exact alook_adel_self _ _
      · exact hur
    | some rooms0 =>
      have heq : run fail (n+1) (.disconnect ws u) s =
          (run fail n (.leave_all u rooms0)
            { s with active_connections := adel s.active_connections u }).then
            fun s2 => ⟨{ s2 with user_rooms := adel s2.user_rooms u }, [], .ok⟩ := by
        simp only [run, hcs]
        rw [hlast]
        simp only [List.isEmpty_nil, eq_self_iff_true, if_true, hur]
      rw [heq] at hok ⊢
      have hsp := Res.then_out_ok hok
      rw [Res.then_ok hsp.1]
      have hwf1 : WF (run fail n (.leave_all u rooms0)
          { s with active_connections := adel s.active_connections u }).state :=
        run_wf fail n _ _ (wf_adel_active hwf u)
      have hempty : rooms (run fail n (.leave_all u rooms0)
          { s with active_connections := adel s.active_connections u }).state u = [] := by
        apply List.eq_nil_iff_forall_not_mem.mpr
        intro x hx
        have hsub : x ∈ rooms ({ s with
            active_connections := adel s.active_connections u } : ManagerState) u :=
          (run_shrink fail n (.leave_all u rooms0) _ rfl).2.2 u x hx
        have hx0 : x ∈ rooms0 := by
          have hval : rooms ({ s with
              active_connections := adel s.active_connections u } : ManagerState) u =
              rooms0 := by
            unfold rooms
            rw [show ({ s with active_connections := adel s.active_connections u } :
              ManagerState).user_rooms = s.user_rooms from rfl, hur]
            rfl
          rw [hval] at hsub
          exact hsub
        exact leave_all_removes fail n u rooms0 _ hsp.1 x hx0 hx
      refine ⟨?_, ?_, ?_, ?_⟩
      · intro r hm
        have hm2 : u ∈ members (run fail n (.leave_all u rooms0)
            { s with active_connections := adel s.active_connections u }).state r := hm
        have := (hwf1.bidir u r).mp hm2
        rw [hempty] at this
        simp at this
      · intro r ms h
        exact hwf1.roomsNE r ms h
      · have hproj : (⟨({ (run fail n (.leave_all u rooms0)
            { s with active_connections := adel s.active_connections u }).state with
            user_rooms := adel (run fail n (.leave_all u rooms0)
              { s with active_connections := adel s.active_connections u
              }).state.user_rooms u } : ManagerState), [], .ok⟩ : Res).state.active_connections =
            (run fail n (.leave_all u rooms0)
              { s with active_connections := adel s.active_connections u
              }).state.active_connections := rfl
        rw [hproj]
        cases halook2 : alook (run fail n (.leave_all u rooms0)
            { s with active_connections := adel s.active_connections u
            }).state.active_connections u with
        | none => rfl
        | some cs2 =>
          exfalso
          have hne := hwf1.activeNE u cs2 halook2
          obtain ⟨c, hc⟩ := List.exists_mem_of_ne_nil _ hne
          have hc2 : c ∈ aconns (run fail n (.leave_all u rooms0)
              { s with active_connections := adel s.active_connections u }).state u := by
            unfold aconns
            rw [halook2]
            exact hc
          have hc3 : c ∈ aconns ({ s with
              active_connections := adel s.active_connections u } : ManagerState) u :=
            (run_shrink fail n (.leave_all u rooms0) _ rfl).1 u c hc2
          unfold aconns at hc3
          rw [show ({ s with active_connections := adel s.active_connections u } :
            ManagerState).active_connections = adel s.active_connections u from rfl,
            alook_adel_self] at hc3
          simp at hc3
      · exact alook_adel_self _ _

theorem claim2_disconnect_cascade_no_dangling_witness :
    (disconnect [] 20 0 "A" exampleState).out = .ok ∧
    ((∀ r, "A" ∉ members (disconnect [] 20 0 "A" exampleState).state r) ∧
     (∀ r ms, alook (disconnect [] 20 0 "A" exampleState).state.room_subscriptions r =
        some ms → ms ≠ []) ∧
     alook (disconnect [] 20 0 "A" exampleState).state.active_connections "A" = none ∧
     alook (disconnect [] 20 0 "A" exampleState).state.user_rooms "A" = none) :=
  ⟨by decide,
    @claim2_disconnect_cascade_no_dangling [] 20 0 "A" exampleState
      (Reachable.step [] 9 (.join_room "B" "r")
        (Reachable.step [] 9 (.join_room "A" "r")
          (Reachable.step [] 5 (.connect 1 "B")
            (Reachable.step [] 5 (.connect 0 "A") Reachable.empty))))
      [0] (by decide) (by decide) (by decide)⟩

/-- Claim C3 counterexample: an inbound frame that is not valid JSON does
not leave the connection Active with an error reply; instead the receive
loop terminates and the socket is closed with the internal-error code 1011
(and no error reply is sent, while the registry entry survives). -/
theorem claim3_counterexample_bad_json_closes :
    websocket_endpoint [] 20 (some "A") 0 [.badJson] ⟨[], [], []⟩ =
      ⟨⟨[("A", [0])], [], []⟩, [(0, .connection_established "A")], .closedInternal⟩ := by
  decide

/-- Claim C3 amended: an inbound message that parses as JSON but carries an
unrecognized type tag results only in an `error` reply to the sender, the
registry entry is unchanged and the receive loop continues with the
remaining frames; input that is not valid JSON, however, terminates the
loop and the socket is closed with the internal-error code. -/
theorem claim3_amended_protocol_error_handling (fail : List Nat)
    (n ws : Nat) (u : String) (tag : Option String)
    (rest : List Frame) (s : ManagerState)
    (hnf : ∀ c ∈ aconns s u, fail.contains c = false) :
    run_loop fail (n+2) ws (.msg (.unknown tag) :: rest) u s =
      ⟨(run_loop fail (n+1) ws rest u s).state,
        (aconns s u).map
          (fun c => (c, .error ("Unknown message type: " ++ tagStr tag) none)) ++
          (run_loop fail (n+1) ws rest u s).sent,
        (run_loop fail (n+1) ws rest u s).ending⟩ ∧
    run_loop fail (n+1) ws (.badJson :: rest) u s = ⟨s, [], .closedInternal⟩ := by
  constructor
  · simp only [run_loop, handle_websocket_message]
    rw [send_nofail fail n _ u s hnf]
  · simp only [run_loop]

theorem claim3_amended_protocol_error_handling_witness :
    run_loop [] 9 0 [.msg (.unknown (some "bogus"))] "A" ⟨[("A", [0])], [], []⟩ =
      ⟨(run_loop [] 8 0 [] "A" ⟨[("A", [0])], [], []⟩).state,
        (aconns ⟨[("A", [0])], [], []⟩ "A").map
          (fun c => (c, .error ("Unknown message type: " ++ tagStr (some "bogus")) none)) ++
          (run_loop [] 8 0 [] "A" ⟨[("A", [0])], [], []⟩).sent,
        (run_loop [] 8 0 [] "A" ⟨[("A", [0])], [], []⟩).ending⟩ ∧
    run_loop [] 8 0 [.badJson] "A" ⟨[("A", [0])], [], []⟩ =
      ⟨⟨[("A", [0])], [], []⟩, [], .closedInternal⟩ :=
  claim3_amended_protocol_error_handling [] 7 0 "A" (some "bogus")
    [] ⟨[("A", [0])], [], []⟩ (by decide)

/-- Claim C4: the source of `broadcast_to_room` iterates the live member
set, not a snapshot.  On this input (room `list_1` with members A and B,
A's only socket failing) the send failure triggers the disconnect cascade,
which mutates the member set mid-iteration; CPython's set iterator then
raises `RuntimeError`, the broadcast aborts, and B (socket 1) receives the
cascade's `user_left_room` but never the payload being broadcast. -/
theorem claim4_broadcast_live_iteration_raises :
    broadcast_to_room [0] 10 (.payload "x") "list_1" none
        ⟨[("A", [0]), ("B", [1])], [("list_1", ["A", "B"])],
          [("A", ["list_1"]), ("B", ["list_1"])]⟩ =
      ⟨⟨[("B", [1])], [("list_1", ["B"])], [("B", ["list_1"])]⟩,
        [(1, .user_left_room "list_1" "A")], .runtimeError⟩ := by
  decide

/-- Claim C5 counterexample: `connect` of a second socket delivers
`connection_established` to the pre-existing socket 5 as well, not to the
new socket 7 only. -/
theorem claim5_counterexample_preexisting_receives :
    connect [] 10 7 "u" ⟨[("u", [5])], [], []⟩ =
      ⟨⟨[("u", [5, 7])], [], []⟩,
        [(5, .connection_established "u"), (7, .connection_established "u")], .ok⟩ := by
  decide

/-- Claim C5 amended: on a successful `connect` the
`connection_established` message goes through `send_personal_message` and
is therefore delivered to every connection of the user — the k
pre-existing ones and the new one — when none of them fails. -/
theorem claim5_amended_connect_notifies_all_connections (fail : List Nat) (n ws : Nat)
    (u : String) (s : ManagerState)
    (h : ∀ c ∈ aconns s u ++ [ws], fail.contains c = false) :
    connect fail (n+2) ws u s =
      ⟨connect_state s ws u,
        (aconns s u ++ [ws]).map (fun c => (c, .connection_established u)), .ok⟩ := by
  have hac : aconns (connect_state s ws u) u = aconns s u ++ [ws] := by
    rw [active_connect_state]
    simp
  have heq : connect fail (n+2) ws u s =
      run fail (n+1) (.send_personal (.connection_established u) u)
        (connect_state s ws u) := rfl
  rw [heq, send_nofail fail n _ u (connect_state s ws u) (by rw [hac]; exact h), hac]

theorem claim5_amended_connect_notifies_all_connections_witness :
    connect [] 10 7 "u" ⟨[("u", [5])], [], []⟩ =
      ⟨connect_state ⟨[("u", [5])], [], []⟩ 7 "u",
        (aconns ⟨[("u", [5])], [], []⟩ "u" ++ [7]).map
          (fun c => (c, .connection_established "u")), .ok⟩ :=
  claim5_amended_connect_notifies_all_connections [] 8 7 "u" ⟨[("u", [5])], [], []⟩
    (by decide)

/-- Claim C6: self-healing delivery.  When exactly one registered
connection fails — cfail, belonging to user u — `send_personal_message`
never raises, and on completion every other connection of u received the
message, only cfail was deregistered from u's entry, and every other
user's registry entry is untouched. -/
theorem claim6_self_healing_send (fail : List Nat) (fuel : Nat) (m : Msg) (u : String)
    (s : ManagerState) {cs : List Nat} {cfail : Nat}
    (hcs : alook s.active_connections u = some cs)
    (hnd : cs.Nodup) (hmem : cfail ∈ cs)
    (honly : ∀ p ∈ s.active_connections, ∀ c ∈ p.2, (fail.contains c = true ↔ c = cfail))
    (hunique : ∀ p ∈ s.active_connections, p.1 ≠ u → cfail ∉ p.2) :
    (send_personal_message fail fuel m u s).out ≠ .runtimeError ∧
    ((send_personal_message fail fuel m u s).out = .ok →
      (∀ c ∈ cs, c ≠ cfail → (c, m) ∈ (send_personal_message fail fuel m u s).sent) ∧
      alook (send_personal_message fail fuel m u s).state.active_connections u =
        (if cs.erase cfail = [] then none else some (cs.erase cfail)) ∧
      (∀ v, v ≠ u →
        alook (send_personal_message fail fuel m u s).state.active_connections v =
          alook s.active_connections v)) := by
  cases fuel with
  | zero =>
    constructor
    · simp [send_personal_message, run]
    · intro h
      simp [send_personal_message, run] at h
  | succ n =>
    have hfilters : cs.filter (fun c => fail.contains c) = [cfail] :=
      filter_eq_singleton hnd hmem (fun c hc => honly (u, cs) (alook_mem hcs) c hc)
    have heq : send_personal_message fail (n+1) m u s =
        ⟨(run fail n (.disconnect_all u [cfail]) s).state,
          (cs.filter (fun c => !(fail.contains c))).map (fun c => (c, m)) ++
            (run fail n (.disconnect_all u [cfail]) s).sent,
          (run fail n (.disconnect_all u [cfail]) s).out⟩ := by
      show run fail (n+1) (.send_personal m u) s = _
      simp only [run, hcs, hfilters, then_pure]
    rw [heq]
    have hdeliv : ∀ c ∈ cs, c ≠ cfail →
        (c, m) ∈ (cs.filter (fun c => !(fail.contains c))).map (fun c => (c, m)) := by
      intro c hc hne
      have hfc : fail.contains c = false := by
        cases hb : fail.contains c with
        | false => rfl
        | true => exact absurd ((honly (u, cs) (alook_mem hcs) c hc).mp hb) hne
      exact List.mem_map.mpr ⟨c, List.mem_filter.mpr ⟨hc, by rw [hfc]; rfl⟩, rfl⟩
    cases n with
    | zero =>
      constructor
      · simp [run]
      · intro h
        simp [run] at h
    | succ k =>
      have hda : run fail (k+1) (.disconnect_all u [cfail]) s =
          run fail k (.disconnect cfail u) s := by
        simp only [run]
        have hfn : (fun s1 => run fail k (.disconnect_all u []) s1) =
            (fun s1 => (⟨s1, [], .ok⟩ : Res)) :=
          funext (fun s1 => run_disconnect_all_nil fail k u s1)
        rw [hfn, then_id]
      rw [hda]
      have hd := disconnect_single_clean fail k u s hcs hmem honly hunique
      refine ⟨hd.1, ?_⟩
      intro hok
      have hd2 := hd.2 hok
      exact ⟨fun c hc hne => List.mem_append_left _ (hdeliv c hc hne), hd2.1, hd2.2⟩

theorem claim6_self_healing_send_witness :
    (send_personal_message [2] 30 (.payload "m") "A" exampleState2).out = .ok ∧
    ((send_personal_message [2] 30 (.payload "m") "A" exampleState2).out = .ok →
      (∀ c ∈ [0, 2], c ≠ 2 →
        (c, Msg.payload "m") ∈
          (send_personal_message [2] 30 (.payload "m") "A" exampleState2).sent) ∧
      alook (send_personal_message [2] 30 (.payload "m") "A"
          exampleState2).state.active_connections "A" =
        (if [0, 2].erase 2 = [] then none else some ([0, 2].erase 2)) ∧
      (∀ v, v ≠ "A" →
        alook (send_personal_message [2] 30 (.payload "m") "A"
            exampleState2).state.active_connections v =
          alook exampleState2.active_connections v)) :=
  ⟨by decide,
    (@claim6_self_healing_send [2] 30 (.payload "m") "A" exampleState2 [0, 2] 2
      (by decide) (by decide) (by decide) (by decide) (by decide)).2⟩

/-- Claim C7 counterexample: the source guards the exclusion with Python
truthiness (`if exclude_user and ...`), so excluding the empty-string user
does not exclude it: broadcasting to room `r` with `exclude_user = ""`
still delivers to the member `""` (socket 0). -/
theorem claim7_counterexample_empty_exclude :
    broadcast_to_room [] 5 (.payload "m") "r" (some "")
        ⟨[("", [0])], [("r", [""])], [("", ["r"])]⟩ =
      ⟨⟨[("", [0])], [("r", [""])], [("", ["r"])]⟩, [(0, .payload "m")], .ok⟩ := by
  decide

/-- Claim C7 amended: for every user u with a non-empty id,
`broadcast_to_room` with `exclude_user = u` delivers the message to every
connection of every member other than u, and no connection of u receives
anything — provided no registered connection fails and u's connections are
not shared with other users. -/
theorem claim7_amended_broadcast_exclusion (fail : List Nat) (fuel : Nat) (m : Msg)
    (r : String) (u : String) (s : ManagerState) (hu : u ≠ "")
    (hnf : NoFailing fail s)
    (hdisj : ∀ p ∈ s.active_connections, p.1 ≠ u → ∀ c ∈ p.2, c ∉ aconns s u) :
    (broadcast_to_room fail fuel m r (some u) s).out ≠ .runtimeError ∧
    ((broadcast_to_room fail fuel m r (some u) s).out = .ok →
      (∀ v ∈ members s r, v ≠ u → ∀ c ∈ aconns s v,
        (c, m) ∈ (broadcast_to_room fail fuel m r (some u) s).sent) ∧
      (∀ c ∈ aconns s u, ∀ m2,
        (c, m2) ∉ (broadcast_to_room fail fuel m r (some u) s).sent)) := by
  cases fuel with
  | zero =>
    constructor
    · simp [broadcast_to_room, run]
    · intro h
      simp [broadcast_to_room, run] at h
  | succ n =>
    have hb := broadcast_nofail fail n m r (some u) s hnf
    refine ⟨hb.2.1, ?_⟩
    intro hok
    have hsent := hb.2.2 hok
    constructor
    · intro v hv hvu c hc
      have hex : excludedBy (some u) v = false := by
        rw [excludedBy_some, if_neg hu]
        exact beq_eq_false_iff_ne.mpr hvu
      have hfc : fail.contains c = false := nofailing_aconns hnf v c hc
      show (c, m) ∈ (run fail (n+1) (.broadcast m r (some u)) s).sent
      rw [hsent]
      exact mem_bcast_sends.mpr ⟨rfl, v, hv, hex, hc, hfc⟩
    · intro c hc m2 hmem2
      have hmem3 : (c, m2) ∈ (run fail (n+1) (.broadcast m r (some u)) s).sent := hmem2
      rw [hsent] at hmem3
      obtain ⟨rfl, w, hw, hwex, hwc, hwf⟩ := mem_bcast_sends.mp hmem3
      by_cases hwu : w = u
      · rw [hwu] at hwex
        rw [excludedBy_some, if_neg hu] at hwex
        simp at hwex
      · unfold aconns at hwc
        cases halook : alook s.active_connections w with
        | none => rw [halook] at hwc; simp at hwc
        | some cs2 =>
          rw [halook] at hwc
          exact hdisj (w, cs2) (alook_mem halook) hwu c hwc hc

theorem claim7_amended_broadcast_exclusion_witness :
    (broadcast_to_room [] 9 (.payload "m") "r" (some "A") exampleState).out = .ok ∧
    ((broadcast_to_room [] 9 (.payload "m") "r" (some "A") exampleState).out = .ok →
      (∀ v ∈ members exampleState "r", v ≠ "A" → ∀ c ∈ aconns exampleState v,
        (c, Msg.payload "m") ∈
          (broadcast_to_room [] 9 (.payload "m") "r" (some "A") exampleState).sent) ∧
      (∀ c ∈ aconns exampleState "A", ∀ m2,
        (c, m2) ∉
          (broadcast_to_room [] 9 (.payload "m") "r" (some "A") exampleState).sent)) :=
  ⟨by decide,
    (claim7_amended_broadcast_exclusion [] 9 (.payload "m") "r" "A" exampleState
      (by decide) (by unfold NoFailing; decide) (by decide)).2⟩

/-- Claim C8 counterexample: `leave_room` for a non-member is not free of
observable effects — room `r` (sole member B, socket 1) still receives a
`user_left_room` notification about the non-member A. -/
theorem claim8_counterexample_nonmember_leave_broadcasts :
    leave_room [] 10 "A" "r" ⟨[("A", [0]), ("B", [1])], [("r", ["B"])], [("B", ["r"])]⟩ =
      ⟨⟨[("A", [0]), ("B", [1])], [("r", ["B"])], [("B", ["r"])]⟩,
        [(1, .user_left_room "r" "A")], .ok⟩ := by
  decide

/-- Claim C8 amended: `leave_room u r` when u is not a member of r (with
the room-map invariants and no failing connections) leaves the registry,
the room map and the reverse index unchanged and raises nothing; it is a
complete no-op when r does not exist, but when r exists its members other
than u are still sent a `user_left_room` message about u. -/
theorem claim8_amended_leave_nonmember_state_noop (fail : List Nat) (n : Nat)
    (u r : String) (s : ManagerState)
    (hroomsNE : ∀ p ∈ s.room_subscriptions, p.2 ≠ [])
    (hnm : u ∉ members s r) (hnr : r ∉ rooms s u) (hnf : NoFailing fail s) :
    (leave_room fail (n+2) u r s).state = s ∧
    (leave_room fail (n+2) u r s).out ≠ .runtimeError ∧
    (alook s.room_subscriptions r = none → leave_room fail (n+2) u r s = ⟨s, [], .ok⟩) ∧
    ((leave_room fail (n+2) u r s).out = .ok →
      (leave_room fail (n+2) u r s).sent =
        bcast_sends fail (.user_left_room r u) (some u) s (members s r) ∧
      ∀ v ∈ members s r, v ≠ u → ∀ c ∈ aconns s v,
        (c, .user_left_room r u) ∈ (leave_room fail (n+2) u r s).sent) := by
  have hls : leave_room_state s u r = s := lrs_noop hroomsNE hnm hnr
  have hlr := leave_room_nofail fail (n+1) u r s hnf
  have hwrap : leave_room fail (n+2) u r s = run fail (n+2) (.leave_room u r) s := rfl
  rw [hwrap]
  refine ⟨by rw [hlr.1, hls], hlr.2.1, ?_, ?_⟩
  · intro hnone
    have heq : run fail (n+2) (.leave_room u r) s =
        run fail (n+1) (.broadcast (.user_left_room r u) r (some u))
          (leave_room_state s u r) := by
      simp only [run]
    rw [heq, hls]
    simp only [run, hnone]
  · intro hok
    have hsent := hlr.2.2 hok
    rw [hls] at hsent
    refine ⟨hsent, ?_⟩
    intro v hv hvu c hc
    have hex : excludedBy (some u) v = false := by
      rw [excludedBy_some]
      by_cases hue : u = ""
      · rw [if_pos hue]
      · rw [if_neg hue]
        exact beq_eq_false_iff_ne.mpr hvu
    have hfc : fail.contains c = false := nofailing_aconns hnf v c hc
    rw [hsent]
    exact mem_bcast_sends.mpr ⟨rfl, v, hv, hex, hc, hfc⟩

theorem claim8_amended_leave_nonmember_state_noop_witness :
    (leave_room [] 10 "A" "r"
        ⟨[("A", [0]), ("B", [1])], [("r", ["B"])], [("B", ["r"])]⟩).state =
      ⟨[("A", [0]), ("B", [1])], [("r", ["B"])], [("B", ["r"])]⟩ ∧
    ((leave_room [] 10 "A" "r"
        ⟨[("A", [0]), ("B", [1])], [("r", ["B"])], [("B", ["r"])]⟩).out = .ok →
      (leave_room [] 10 "A" "r"
          ⟨[("A", [0]), ("B", [1])], [("r", ["B"])], [("B", ["r"])]⟩).sent =
        bcast_sends [] (.user_left_room "r" "A") (some "A")
          ⟨[("A", [0]), ("B", [1])], [("r", ["B"])], [("B", ["r"])]⟩
          (members ⟨[("A", [0]), ("B", [1])], [("r", ["B"])], [("B", ["r"])]⟩ "r") ∧
      ∀ v ∈ members ⟨[("A", [0]), ("B", [1])], [("r", ["B"])], [("B", ["r"])]⟩ "r",
        v ≠ "A" →
        ∀ c ∈ aconns ⟨[("A", [0]), ("B", [1])], [("r", ["B"])], [("B", ["r"])]⟩ v,
          (c, Msg.user_left_room "r" "A") ∈
            (leave_room [] 10 "A" "r"
              ⟨[("A", [0]), ("B", [1])], [("r", ["B"])], [("B", ["r"])]⟩).sent) :=
  ⟨(claim8_amended_leave_nonmember_state_noop [] 8 "A" "r"
      ⟨[("A", [0]), ("B", [1])], [("r", ["B"])], [("B", ["r"])]⟩
      (by decide) (by decide) (by decide) (by unfold NoFailing; decide)).1,
    (claim8_amended_leave_nonmember_state_noop [] 8 "A" "r"
      ⟨[("A", [0]), ("B", [1])], [("r", ["B"])], [("B", ["r"])]⟩
      (by decide) (by decide) (by decide) (by unfold NoFailing; decide)).2.2.2⟩

/-- Claim C9: authentication failure is atomic.  When the token fails to
resolve to a user id, the endpoint closes the socket with the
policy-violation code, the manager state is exactly as before the attempt,
and nothing was delivered to anyone. -/
theorem claim9_auth_failure_is_atomic (fail : List Nat)
    (fuel : Nat) (ws : Nat) (frames : List Frame) (s : ManagerState) :
    websocket_endpoint fail fuel none ws frames s = ⟨s, [], .closedPolicy⟩ := rfl

/-- Claim C10: the access gate on `join_list_room` does not exist in the
code.  `ShoppingListService` has no `get_shopping_list_by_id` (its lookup
is `get_list_by_id`), so the handler raises `AttributeError` for every
truthy `list_id`; the exception escapes to the endpoint's generic handler
and the socket is closed with internal-error code 1011 — no room state is
created and no access-denied reply is sent.  Only the absent-`list_id`
case behaves as the claim says: nothing at all happens. -/
theorem claim10_join_gate_attribute_error :
    websocket_endpoint [] 20 (some "A") 0 [.msg (.join_list_room (some "5"))]
        ⟨[], [], []⟩ =
      ⟨⟨[("A", [0])], [], []⟩, [(0, .connection_established "A")], .closedInternal⟩ ∧
    handle_websocket_message [] 8 (.join_list_room none) "A" ⟨[("A", [0])], [], []⟩ =
      some ⟨⟨[("A", [0])], [], []⟩, [], .ok⟩ := by
  decide

end PentryPal